import Mathlib

/-!
A shallow embedding of the dormant-accounts repository's core:

* the activity database (`packages/dormant-accounts/src/database.ts`),
* the duration utilities (`packages/dormant-accounts/src/utils.ts`),
* the dormancy check engine (`DormantAccountCheck`),
* the GitHub-issue notification lifecycle (`packages/github/src/provider/copilot.ts`,
  `GithubIssueNotifier`).

Modelling conventions:

* Timestamps (JavaScript `Date` / ISO strings) are integers (milliseconds since
  epoch); `null` dates are `Option.none`.
* A JavaScript object used as a keyed document is modelled as an ordered
  association list `List (String × ·)`; JS objects have unique keys and
  preserve insertion order, `obj[k] = v` replaces in place or appends,
  `delete obj[k]` drops the key.
* `localeCompare`-based string sorting is modelled by Lean's lexicographic
  order on `String`; for the lowercase-ASCII login keys the store holds the
  two orders agree.
* `async` functions that can reject are modelled in `Except String`.
* The `ms` duration-string parse is modelled by its numeric result
  (`Option Int`, `none` for an absent/empty duration string).
-/

namespace DormantAccounts

/-- The `_state` metadata record of the database document
(`StateData` in `database.ts`): `lastRun`, `'check-type'`, `lastUpdated`. -/
structure StateData where
  lastRun : Int
  checkType : String
  lastUpdated : Int
deriving Repr, DecidableEq

/-- A stored per-user record (`UserRecord = Omit<LastActivityRecord, 'login'>`). -/
structure UserRecord where
  lastActivity : Option Int
  activityType : String
deriving Repr, DecidableEq

/-- A value stored under a key of the database document: either the `_state`
metadata record or a user record (the index signature of `DatabaseSchema`). -/
inductive DocValue where
  | state (s : StateData)
  | user (u : UserRecord)
deriving Repr, DecidableEq

/-- The database document (`DatabaseSchema`): a JS object, i.e. an ordered
association list from keys to values. -/
abbrev DatabaseSchema := List (String × DocValue)

/-- A full activity record (`LastActivityRecord` in `types.ts`). -/
structure LastActivityRecord where
  login : String
  lastActivity : Option Int
  activityType : String
deriving Repr, DecidableEq

/-- Reading `doc[key]` on the JS document object (JS objects have unique
keys, so the first match is the value). -/
def getValue : DatabaseSchema → String → Option DocValue
  | [], _ => none
  | kv :: rest, key =>
    match kv.1 == key with
    | true => some kv.2
    | false => getValue rest key

/-- Reading `doc._state`, provided the key holds the metadata record. -/
def getState (doc : DatabaseSchema) : Option StateData :=
  match getValue doc "_state" with
  | some (.state s) => some s
  | _ => none

/-- The JS assignment `doc[key] = v`: replace in place when the key exists,
otherwise append the key at the end. -/
def setKey (doc : DatabaseSchema) (key : String) (v : DocValue) : DatabaseSchema :=
  if doc.any (fun kv => kv.1 == key) then
    doc.map (fun kv => if kv.1 == key then (key, v) else kv)
  else
    doc ++ [(key, v)]

/-- Key order used by `writeWithSort` (`(a, b) => a.localeCompare(b)`,
modelled as lexicographic string order). -/
def keyLe (a b : String × DocValue) : Prop := a.1 ≤ b.1

instance : DecidableRel keyLe := fun a b =>
  decidable_of_iff (a.1.toList ≤ b.1.toList) String.le_iff_toList_le.symm

instance : IsTotal (String × DocValue) keyLe := ⟨fun a b => le_total a.1 b.1⟩

instance : IsTrans (String × DocValue) keyLe := ⟨fun _ _ _ h₁ h₂ => le_trans h₁ h₂⟩

/-- The `.sort(([a], [b]) => a.localeCompare(b))` step of `writeWithSort`. -/
def sortEntries (l : List (String × DocValue)) : List (String × DocValue) :=
  List.insertionSort keyLe l

/-- Fail-fast sequencing of an array of rejecting async operations, one per
list element (`Promise.all(list.map(f))`, surfacing the first rejection). -/
def mapE {α β : Type} (f : α → Except String β) : List α → Except String (List β)
  | [] => .ok []
  | a :: l =>
    match f a with
    | .error e => .error e
    | .ok b =>
      match mapE f l with
      | .error e => .error e
      | .ok bs => .ok (b :: bs)

/-- `Database.validateCheckType`: rejects when the document's stamped
`'check-type'` is set (truthy, i.e. a non-empty string) and differs from the
instance's `checkType`.  A document without a readable `_state` record makes
the JS property access crash, modelled as an error as well. -/
def validateCheckType (checkType : String) (doc : DatabaseSchema) : Except String Unit :=
  match getState doc with
  | none => .error "TypeError: no _state record"
  | some st =>
    if st.checkType ≠ "" ∧ st.checkType ≠ checkType then
      .error "Check type mismatch"
    else
      .ok ()

/-- `Database.writeWithSort`: rebuild the whole document with `_state` first,
all other entries sorted by key, and stamp `_state.lastUpdated` with the
current time.  (In JS a document whose `_state` slot does not hold the
metadata record crashes when `lastUpdated` is stamped; modelled as an
error.) -/
def writeWithSort (doc : DatabaseSchema) (now : Int) : Except String DatabaseSchema :=
  match getState doc with
  | none => .error "TypeError: no _state record"
  | some st =>
    .ok (("_state", .state { st with lastUpdated := now }) ::
      sortEntries (doc.filter (fun kv => kv.1 != "_state")))

/-- `Database.getLastRun`.  The `await` sequencing of the rejecting
`validateCheckType` call is the explicit error-propagating match. -/
def getLastRun (checkType : String) (doc : DatabaseSchema) : Except String Int :=
  match validateCheckType checkType doc with
  | .error e => .error e
  | .ok _ =>
    match getState doc with
    | some st => .ok st.lastRun
    | none => .error "TypeError: no _state record"

/-- `Database.updateLastRun`: validate, set `_state.lastRun` in place, then
full rewrite.  `timestamp` is the caller-supplied timestamp, `now` the wall
clock used for the `lastUpdated` stamp. -/
def updateLastRun (checkType : String) (doc : DatabaseSchema) (timestamp now : Int) :
    Except String DatabaseSchema :=
  match validateCheckType checkType doc with
  | .error e => .error e
  | .ok _ =>
    match getState doc with
    | some st =>
      writeWithSort (setKey doc "_state" (.state { st with lastRun := timestamp })) now
    | none => .error "TypeError: no _state record"

/-- `Database.updateUserActivity`: upsert `doc[login]` with the record minus
its `login` key, then full rewrite.  The source performs no
`validateCheckType` call here. -/
def updateUserActivity (doc : DatabaseSchema) (rec : LastActivityRecord) (now : Int) :
    Except String DatabaseSchema :=
  writeWithSort (setKey doc rec.login (.user ⟨rec.lastActivity, rec.activityType⟩)) now

/-- `Database.removeUserActivityRecord`: validate; return `false` without
writing when the key is absent or is the reserved `_state` key; otherwise
delete the key, full rewrite, and return `true`.  The source accepts a login
string or a record (`typeof user === 'string' ? user : user.login`); the
extracted login is modelled directly. -/
def removeUserActivityRecord (checkType : String) (doc : DatabaseSchema)
    (login : String) (now : Int) : Except String (DatabaseSchema × Bool) :=
  match validateCheckType checkType doc with
  | .error e => .error e
  | .ok _ =>
    if (getValue doc login).isNone ∨ login = "_state" then
      .ok (doc, false)
    else
      match writeWithSort (doc.filter (fun kv => kv.1 != login)) now with
      | .error e => .error e
      | .ok doc' => .ok (doc', true)

/-- `Database.getActivityRecords`: validate, then rebuild full records from
all non-`_state` entries, re-attaching the login from the key; a non-user
value under a non-`_state` key fails the whole read
(`isUserRecord` guard, `'Unexpected non-user record found'`). -/
def getActivityRecords (checkType : String) (doc : DatabaseSchema) :
    Except String (List LastActivityRecord) :=
  match validateCheckType checkType doc with
  | .error e => .error e
  | .ok _ =>
    mapE (fun kv =>
      match kv.2 with
      | .user u => .ok (⟨kv.1, u.lastActivity, u.activityType⟩ : LastActivityRecord)
      | .state _ => .error "Unexpected non-user record found")
      (doc.filter (fun kv => kv.1 != "_state"))

/-- `Database.getRawData`: validated full-document snapshot. -/
def getRawData (checkType : String) (doc : DatabaseSchema) : Except String DatabaseSchema :=
  match validateCheckType checkType doc with
  | .error e => .error e
  | .ok _ => .ok doc

/-- `msBetweenDates` from `utils.ts`. -/
def msBetweenDates (start endTime : Int) : Int := endTime - start

/-- `compareDatesAgainstDuration` from `utils.ts`, restricted to the
`overDuration` component the engine consumes.  `durationMillis` is the `ms`
parse of the duration string; `none` (no parse) and a falsy `0` parse both
take the `'Invalid duration string'` branch. -/
def compareDatesAgainstDuration (durationMillis : Option Int) (start endTime : Int) :
    Except String Bool :=
  match durationMillis with
  | none => .error "Invalid duration string"
  | some d =>
    if d = 0 then .error "Invalid duration string"
    else .ok (decide (msBetweenDates start endTime > d))

/-- `DormantAccountCheck.defaultDormancyHandler`: a record without
`lastActivity` is dormant (a `Date` object is always truthy, so only `null`
takes this branch); otherwise compare `checkTime - lastActivity` against the
configured duration. -/
def defaultDormancyHandler (lastActivity : Option Int) (checkTime : Int)
    (durationMillis : Option Int) : Except String Bool :=
  match lastActivity with
  | none => .ok true
  | some t =>
    match durationMillis with
    | none => .error "No duration provided for dormancy check"
    | some d => compareDatesAgainstDuration (some d) t checkTime

/-- C4: under the default dormancy predicate with a valid (parseable,
non-zero) threshold `D`: a `null` `lastActivity` is dormant; otherwise the
account is dormant exactly when `now - lastActivity` strictly exceeds `D`
milliseconds, so `lastActivity = N - D - 1` is dormant and
`lastActivity = N - D + 1` is active. -/
theorem defaultDormancy_null_and_strict_boundary (N D : Int) (hD : D ≠ 0) :
    defaultDormancyHandler none N (some D) = .ok true ∧
    (∀ t : Int, defaultDormancyHandler (some t) N (some D) = .ok (decide (N - t > D))) ∧
    defaultDormancyHandler (some (N - D - 1)) N (some D) = .ok true ∧
    defaultDormancyHandler (some (N - D + 1)) N (some D) = .ok false := by
  refine ⟨rfl, ?_, ?_, ?_⟩
  · intro t
    simp [defaultDormancyHandler, compareDatesAgainstDuration, msBetweenDates, hD]
  · simp only [defaultDormancyHandler, compareDatesAgainstDuration, msBetweenDates, if_neg hD]
    congr 1
    rw [decide_eq_true_iff]
    omega
  · simp only [defaultDormancyHandler, compareDatesAgainstDuration, msBetweenDates, if_neg hD]
    congr 1
    rw [decide_eq_false_iff_not]
    omega

/-- Witness for C4 at `N = 1000`, `D = 7`. -/
theorem defaultDormancy_null_and_strict_boundary_witness :
    (7 : Int) ≠ 0 ∧
      (defaultDormancyHandler none 1000 (some 7) = .ok true ∧
       (∀ t : Int, defaultDormancyHandler (some t) 1000 (some 7) = .ok (decide (1000 - t > 7))) ∧
       defaultDormancyHandler (some (1000 - 7 - 1)) 1000 (some 7) = .ok true ∧
       defaultDormancyHandler (some (1000 - 7 + 1)) 1000 (some 7) = .ok false) :=
  ⟨by decide, defaultDormancy_null_and_strict_boundary 1000 7 (by decide)⟩

/-! Basic lemmas about the document operations. -/

theorem getValue_nil (key : String) : getValue ([] : DatabaseSchema) key = none := rfl

theorem getValue_cons_self (k : String) (v : DocValue) (rest : DatabaseSchema) (key : String)
    (h : (k == key) = true) : getValue ((k, v) :: rest) key = some v := by
  simp [getValue, h]

theorem getValue_cons_ne (k : String) (v : DocValue) (rest : DatabaseSchema) (key : String)
    (h : (k == key) = false) : getValue ((k, v) :: rest) key = getValue rest key := by
  simp [getValue, h]

/-- A key mentioned by no entry reads back `undefined`. -/
theorem getValue_eq_none (doc : DatabaseSchema) (key : String)
    (h : ∀ kv ∈ doc, kv.1 ≠ key) : getValue doc key = none := by
  induction doc with
  | nil => rfl
  | cons kv rest ih =>
    have hb : (kv.1 == key) = false :=
      beq_eq_false_iff_ne.mpr (h kv (List.mem_cons_self kv rest))
    simp only [getValue, hb]
    exact ih (fun kv' hk => h kv' (List.mem_cons_of_mem kv hk))

theorem sortEntries_perm (l : List (String × DocValue)) : List.Perm (sortEntries l) l :=
  List.perm_insertionSort keyLe l

theorem sortEntries_sorted (l : List (String × DocValue)) :
    List.Sorted keyLe (sortEntries l) :=
  List.sorted_insertionSort keyLe l

theorem sortEntries_keys_sorted (l : List (String × DocValue)) :
    List.Sorted (fun a b : String => a ≤ b) ((sortEntries l).map Prod.fst) :=
  List.Pairwise.map Prod.fst (fun _ _ h => h) (sortEntries_sorted l)

theorem validateCheckType_ok (checkType : String) (doc : DatabaseSchema) (st : StateData)
    (hst : getValue doc "_state" = some (.state st))
    (hok : st.checkType = "" ∨ st.checkType = checkType) :
    validateCheckType checkType doc = .ok () := by
  have hcond : ¬(st.checkType ≠ "" ∧ st.checkType ≠ checkType) := by
    rcases hok with h | h <;> simp [h]
  simp [validateCheckType, getState, hst, hcond]

theorem validateCheckType_mismatch (checkType : String) (doc : DatabaseSchema) (st : StateData)
    (hst : getValue doc "_state" = some (.state st))
    (hne : st.checkType ≠ "") (hdiff : st.checkType ≠ checkType) :
    validateCheckType checkType doc = .error "Check type mismatch" := by
  simp [validateCheckType, getState, hst, hne, hdiff]

theorem getState_eq (doc : DatabaseSchema) (st : StateData)
    (hst : getValue doc "_state" = some (.state st)) : getState doc = some st := by
  simp [getState, hst]

/-- Reading any key other than the removed one is unchanged by the key
deletion filter. -/
theorem getValue_filter_ne (doc : DatabaseSchema) (login key : String) (hne : key ≠ login) :
    getValue (doc.filter (fun kv => kv.1 != login)) key = getValue doc key := by
  induction doc with
  | nil => rfl
  | cons kv rest ih =>
    rw [List.filter_cons]
    by_cases hkl : kv.1 = login
    · rw [if_neg (by simp [hkl])]
      have hkk : (kv.1 == key) = false := by
        rw [hkl]
        exact beq_eq_false_iff_ne.mpr (fun h => hne h.symm)
      rw [ih]
      simp [getValue, hkk]
    · rw [if_pos (by simp [hkl])]
      cases hb : (kv.1 == key) with
      | true => simp [getValue, hb]
      | false => simp only [getValue, hb]; exact ih

theorem getValue_append_single (doc : DatabaseSchema) (k : String) (v : DocValue)
    (h : doc.any (fun kv => kv.1 == k) = false) :
    getValue (doc ++ [(k, v)]) k = some v := by
  induction doc with
  | nil => simp [getValue]
  | cons kv rest ih =>
    rw [List.any_cons, Bool.or_eq_false_iff] at h
    rw [List.cons_append]
    simp only [getValue, h.1]
    exact ih h.2

theorem getValue_replace_self (doc : DatabaseSchema) (k : String) (v : DocValue)
    (h : doc.any (fun kv => kv.1 == k) = true) :
    getValue (doc.map (fun kv => if kv.1 == k then (k, v) else kv)) k = some v := by
  induction doc with
  | nil => simp at h
  | cons kv rest ih =>
    rw [List.any_cons] at h
    cases hk : (kv.1 == k) with
    | true => simp [getValue, hk]
    | false =>
      rw [hk, Bool.false_or] at h
      simp only [List.map_cons, hk, Bool.false_eq_true, if_false]
      simp only [getValue, hk]
      exact ih h

/-- `doc[k] = v` makes `doc[k]` read back `v`. -/
theorem getValue_setKey_self (doc : DatabaseSchema) (k : String) (v : DocValue) :
    getValue (setKey doc k v) k = some v := by
  unfold setKey
  by_cases h : doc.any (fun kv => kv.1 == k) = true
  · rw [if_pos h]
    exact getValue_replace_self doc k v h
  · rw [if_neg h]
    exact getValue_append_single doc k v (Bool.not_eq_true _ ▸ h)

theorem getValue_replace_ne (doc : DatabaseSchema) (k key : String) (v : DocValue)
    (hne : key ≠ k) :
    getValue (doc.map (fun kv => if kv.1 == k then (k, v) else kv)) key = getValue doc key := by
  have hknek : (k == key) = false := beq_eq_false_iff_ne.mpr (fun hh => hne hh.symm)
  induction doc with
  | nil => rfl
  | cons kv rest ih =>
    cases hk : (kv.1 == k) with
    | true =>
      have hkk : (kv.1 == key) = false := by
        have : kv.1 = k := by simpa using hk
        rw [this]
        exact hknek
      simp only [List.map_cons, hk, if_pos]
      simp only [getValue, hknek, hkk]
      exact ih
    | false =>
      simp only [List.map_cons, hk, Bool.false_eq_true, if_false]
      cases hkk : (kv.1 == key) with
      | true => simp [getValue, hkk]
      | false =>
        simp only [getValue, hkk]
        exact ih

theorem getValue_append_ne (doc : DatabaseSchema) (k key : String) (v : DocValue)
    (hne : key ≠ k) : getValue (doc ++ [(k, v)]) key = getValue doc key := by
  have hknek : (k == key) = false := beq_eq_false_iff_ne.mpr (fun hh => hne hh.symm)
  induction doc with
  | nil => simp [getValue, hknek]
  | cons kv rest ih =>
    rw [List.cons_append]
    cases hkk : (kv.1 == key) with
    | true => simp [getValue, hkk]
    | false =>
      simp only [getValue, hkk]
      exact ih

/-- `doc[k] = v` leaves every other key's value unchanged. -/
theorem getValue_setKey_ne (doc : DatabaseSchema) (k key : String) (v : DocValue)
    (hne : key ≠ k) : getValue (setKey doc k v) key = getValue doc key := by
  unfold setKey
  by_cases h : doc.any (fun kv => kv.1 == k) = true
  · rw [if_pos h]
    exact getValue_replace_ne doc k key v hne
  · rw [if_neg h]
    exact getValue_append_ne doc k key v hne

/-- C1 (amended): with a stamped identity that is set and differs from the
instance's, every identity-validated operation — `getLastRun`,
`updateLastRun`, `removeUserActivityRecord`, `getActivityRecords`,
`getRawData` — fails with the check-type-mismatch error (so nothing is
served or written); `updateUserActivity` is the exception settled by the
counterexample. -/
theorem identity_mismatch_blocks_validated_ops (checkType : String) (doc : DatabaseSchema)
    (st : StateData) (hst : getValue doc "_state" = some (.state st))
    (hne : st.checkType ≠ "") (hdiff : st.checkType ≠ checkType) :
    getLastRun checkType doc = .error "Check type mismatch" ∧
    (∀ ts now, updateLastRun checkType doc ts now = .error "Check type mismatch") ∧
    (∀ login now,
      removeUserActivityRecord checkType doc login now = .error "Check type mismatch") ∧
    getActivityRecords checkType doc = .error "Check type mismatch" ∧
    getRawData checkType doc = .error "Check type mismatch" := by
  have hv := validateCheckType_mismatch checkType doc st hst hne hdiff
  refine ⟨?_, fun ts now => ?_, fun login now => ?_, ?_, ?_⟩ <;>
    simp [getLastRun, updateLastRun, removeUserActivityRecord, getActivityRecords,
      getRawData, hv]

/-- Counterexample to C1 as stated: a store whose document is stamped with a
different identity still performs `updateUserActivity` successfully and
modifies the document (the source method never calls `validateCheckType`). -/
theorem identity_mismatch_updateUserActivity_counterexample :
    (let doc : DatabaseSchema := [("_state", .state ⟨0, "other-check", 0⟩)]
     let rec₀ : LastActivityRecord := ⟨"alice", some 5, "test"⟩
     validateCheckType "my-check" doc = .error "Check type mismatch" ∧
     updateUserActivity doc rec₀ 99 =
       .ok [("_state", .state ⟨0, "other-check", 99⟩), ("alice", .user ⟨some 5, "test"⟩)]) := by
  constructor <;> rfl

/-- Witness for C1 (amended) on a concrete mismatched document. -/
theorem identity_mismatch_blocks_validated_ops_witness :
    getLastRun "my-check" [("_state", .state ⟨0, "other-check", 0⟩)] =
      .error "Check type mismatch" ∧
    updateLastRun "my-check" [("_state", .state ⟨0, "other-check", 0⟩)] 5 6 =
      .error "Check type mismatch" ∧
    removeUserActivityRecord "my-check" [("_state", .state ⟨0, "other-check", 0⟩)] "alice" 6 =
      .error "Check type mismatch" ∧
    getActivityRecords "my-check" [("_state", .state ⟨0, "other-check", 0⟩)] =
      .error "Check type mismatch" ∧
    getRawData "my-check" [("_state", .state ⟨0, "other-check", 0⟩)] =
      .error "Check type mismatch" := by
  obtain ⟨h₁, h₂, h₃, h₄, h₅⟩ :=
    identity_mismatch_blocks_validated_ops "my-check"
      [("_state", .state ⟨0, "other-check", 0⟩)] ⟨0, "other-check", 0⟩ rfl
      (by decide) (by decide)
  exact ⟨h₁, h₂ 5 6, h₃ "alice" 6, h₄, h₅⟩

/-! Removal: C7. -/

theorem writeWithSort_of_state (doc : DatabaseSchema) (st : StateData) (now : Int)
    (hst : getState doc = some st) :
    writeWithSort doc now =
      .ok (("_state", .state { st with lastUpdated := now }) ::
        sortEntries (doc.filter (fun kv => kv.1 != "_state"))) := by
  simp [writeWithSort, hst]

/-- C7: with a valid identity, removing the reserved `_state` key or an
absent login returns `false` and leaves the document untouched; removing a
present login returns `true` and deletes it, after which a second removal of
the same login returns `false` on the unchanged document. -/
theorem removeAccount_idempotent_and_guard (checkType : String) (doc : DatabaseSchema)
    (st : StateData) (now : Int)
    (hst : getValue doc "_state" = some (.state st))
    (hok : st.checkType = "" ∨ st.checkType = checkType) :
    removeUserActivityRecord checkType doc "_state" now = .ok (doc, false) ∧
    (∀ login, getValue doc login = none →
      removeUserActivityRecord checkType doc login now = .ok (doc, false)) ∧
    (∀ login v, login ≠ "_state" → getValue doc login = some v →
      ∃ doc', removeUserActivityRecord checkType doc login now = .ok (doc', true) ∧
        getValue doc' login = none ∧
        removeUserActivityRecord checkType doc' login now = .ok (doc', false)) := by
  have hv := validateCheckType_ok checkType doc st hst hok
  refine ⟨?_, fun login hnone => ?_, fun login v hlog hsome => ?_⟩
  · simp [removeUserActivityRecord, hv]
  · simp [removeUserActivityRecord, hv, hnone]
  · have hstate' : getState (doc.filter (fun kv => kv.1 != login)) = some st := by
      apply getState_eq
      rw [getValue_filter_ne doc login "_state" (fun h => hlog h.symm)]
      exact hst
    have hw := writeWithSort_of_state (doc.filter (fun kv => kv.1 != login)) st now hstate'
    set doc' : DatabaseSchema :=
      ("_state", .state { st with lastUpdated := now }) ::
        sortEntries ((doc.filter (fun kv => kv.1 != login)).filter
          (fun kv => kv.1 != "_state")) with hdoc'
    have hnotin : getValue doc' login = none := by
      rw [hdoc',
        getValue_cons_ne _ _ _ _ (beq_eq_false_iff_ne.mpr (fun h => hlog h.symm))]
      apply getValue_eq_none
      intro kv hkv
      have hmem : kv ∈ (doc.filter (fun kv => kv.1 != login)).filter
          (fun kv => kv.1 != "_state") :=
        (sortEntries_perm _).mem_iff.mp hkv
      have hkv' : kv ∈ doc.filter (fun kv => kv.1 != login) := List.mem_of_mem_filter hmem
      have hne := List.of_mem_filter hkv'
      simpa using hne
    have hv' : validateCheckType checkType doc' = .ok () := by
      apply validateCheckType_ok checkType doc' { st with lastUpdated := now }
      · rw [hdoc']
        exact getValue_cons_self _ _ _ _ (by simp)
      · simpa using hok
    refine ⟨doc', ?_, hnotin, ?_⟩
    · have hsome' : (getValue doc login).isNone = false := by simp [hsome]
      simp [removeUserActivityRecord, hv, hsome', hlog, hw, hdoc']
    · simp [removeUserActivityRecord, hv', hnotin]

/-- Witness for C7: a concrete two-entry document exercising all three
branches. -/
theorem removeAccount_idempotent_and_guard_witness :
    removeUserActivityRecord "c" [("_state", .state ⟨0, "c", 0⟩),
        ("bob", .user ⟨some 3, "t"⟩)] "_state" 9 =
      .ok ([("_state", .state ⟨0, "c", 0⟩), ("bob", .user ⟨some 3, "t"⟩)], false) ∧
    removeUserActivityRecord "c" [("_state", .state ⟨0, "c", 0⟩),
        ("bob", .user ⟨some 3, "t"⟩)] "zed" 9 =
      .ok ([("_state", .state ⟨0, "c", 0⟩), ("bob", .user ⟨some 3, "t"⟩)], false) ∧
    ∃ doc', removeUserActivityRecord "c" [("_state", .state ⟨0, "c", 0⟩),
        ("bob", .user ⟨some 3, "t"⟩)] "bob" 9 = .ok (doc', true) ∧
      getValue doc' "bob" = none ∧
      removeUserActivityRecord "c" doc' "bob" 9 = .ok (doc', false) := by
  obtain ⟨h₁, h₂, h₃⟩ :=
    removeAccount_idempotent_and_guard "c"
      [("_state", .state ⟨0, "c", 0⟩), ("bob", .user ⟨some 3, "t"⟩)]
      ⟨0, "c", 0⟩ 9 rfl (Or.inr rfl)
  exact ⟨h₁, h₂ "zed" rfl, h₃ "bob" (.user ⟨some 3, "t"⟩) (by decide) rfl⟩

/-! Write discipline: C6. -/

/-- The document shape guaranteed after every full rewrite: the `_state`
metadata entry sits in first position carrying the fresh `lastUpdated`
stamp, and all remaining keys are sorted ascending. -/
def sortedDocShape (d : DatabaseSchema) (now : Int) : Prop :=
  (∃ st', d.head? = some ("_state", .state st') ∧ st'.lastUpdated = now) ∧
  List.Sorted (fun a b : String => a ≤ b) (d.tail.map Prod.fst)

theorem writeWithSort_shape (doc : DatabaseSchema) (now : Int) (d : DatabaseSchema)
    (h : writeWithSort doc now = .ok d) : sortedDocShape d now := by
  unfold writeWithSort at h
  cases hst : getState doc with
  | none => rw [hst] at h; exact absurd h (by simp)
  | some st =>
    rw [hst] at h
    injection h with h
    subst h
    exact ⟨⟨{ st with lastUpdated := now }, rfl, rfl⟩, sortEntries_keys_sorted _⟩

/-- C6: every mutating store operation that completes — `updateLastRun`,
`updateUserActivity`, and a successful `removeUserActivityRecord` — leaves a
document whose first entry is the `_state` metadata record stamped with the
fresh `lastUpdated` time and whose remaining keys are sorted
lexicographically ascending (the whole document is rebuilt by
`writeWithSort`). -/
theorem mutating_ops_rewrite_sorted (checkType : String) (doc : DatabaseSchema) (now : Int) :
    (∀ ts d, updateLastRun checkType doc ts now = .ok d → sortedDocShape d now) ∧
    (∀ rec₀ d, updateUserActivity doc rec₀ now = .ok d → sortedDocShape d now) ∧
    (∀ login d b, removeUserActivityRecord checkType doc login now = .ok (d, b) →
      b = true → sortedDocShape d now) := by
  refine ⟨fun ts d h => ?_, fun rec₀ d h => ?_, fun login d b h hb => ?_⟩
  · unfold updateLastRun at h
    cases hv : validateCheckType checkType doc with
    | error e => rw [hv] at h; exact absurd h (by simp)
    | ok u =>
      rw [hv] at h
      cases hst : getState doc with
      | none => rw [hst] at h; exact absurd h (by simp)
      | some st => rw [hst] at h; exact writeWithSort_shape _ now d h
  · exact writeWithSort_shape _ now d h
  · subst hb
    unfold removeUserActivityRecord at h
    cases hv : validateCheckType checkType doc with
    | error e => rw [hv] at h; exact absurd h (by simp)
    | ok u =>
      rw [hv] at h
      by_cases hg : (getValue doc login).isNone ∨ login = "_state"
      · rw [if_pos hg] at h
        exact absurd h (by simp)
      · rw [if_neg hg] at h
        cases hw : writeWithSort (doc.filter (fun kv => kv.1 != login)) now with
        | error e => rw [hw] at h; exact absurd h (by simp)
        | ok d' =>
          rw [hw] at h
          simp only [Except.ok.injEq, Prod.mk.injEq] at h
          exact h.1 ▸ writeWithSort_shape _ now d' hw

/-- Witness for C6: `updateLastRun` on a concrete unsorted document yields
the sorted shape. -/
theorem mutating_ops_rewrite_sorted_witness :
    sortedDocShape
      [("_state", .state ⟨7, "c", 9⟩), ("alice", .user ⟨some 1, "t"⟩),
        ("zed", .user ⟨none, "t"⟩)] 9 := by
  obtain ⟨h₁, _, _⟩ :=
    mutating_ops_rewrite_sorted "c"
      [("_state", .state ⟨0, "c", 0⟩), ("zed", .user ⟨none, "t"⟩),
        ("alice", .user ⟨some 1, "t"⟩)] 9
  exact h₁ 7 _ (by rfl)

/-! DormantAccountCheck engine: the fetch-and-merge cycle (`fetchActivity`). -/

/-- The `activityResultType` configuration: the source literals are
`'partial' | 'complete'`; `partial` is a Lean keyword, so the first literal
is modelled by the constructor `incomplete`. -/
inductive ActivityResultType where
  | incomplete
  | complete
deriving Repr, DecidableEq

/-- Observable outcome of one `fetchActivity` cycle: the final persisted
document, the logins on which `this.activity.remove` was invoked (in
invocation order), and the rejection surfaced by the cycle, if any. -/
structure FetchOutcome where
  doc : DatabaseSchema
  removals : List String
  error : Option String
deriving Repr, DecidableEq

/-- The `Promise.all(entries.map(logActivityForUser))` step, modelled
sequentially: the per-entry writes mutate the shared document and the first
rejection aborts the cycle (one admissible completion order of the
concurrently awaited operations). -/
def logAll (logStep : LastActivityRecord → DatabaseSchema → Except String DatabaseSchema) :
    List LastActivityRecord → DatabaseSchema → DatabaseSchema × Option String
  | [], doc => (doc, none)
  | e :: rest, doc =>
    match logStep e doc with
    | .error err => (doc, some err)
    | .ok doc' => logAll logStep rest doc'

/-- The default `logActivityForUser` path: `db.updateUserActivity`. -/
def defaultLogStep (now : Int) (rec₀ : LastActivityRecord) (doc : DatabaseSchema) :
    Except String DatabaseSchema :=
  updateUserActivity doc rec₀ now

/-- The complete-snapshot removal loop: `await this.activity.remove(user)`
for each user to remove; recorded are the invoked logins; a rejection aborts
the loop. -/
def removeAll (checkType : String) (now : Int) :
    List LastActivityRecord → DatabaseSchema → DatabaseSchema × List String × Option String
  | [], doc => (doc, [], none)
  | u :: rest, doc =>
    match removeUserActivityRecord checkType doc u.login now with
    | .error e => (doc, [u.login], some e)
    | .ok (doc', _) =>
      let r := removeAll checkType now rest doc'
      (r.1, u.login :: r.2.1, r.2.2)

/-- The `activityResultType === 'complete'` reconciliation block of
`fetchActivity`: list all stored accounts, diff against the fetched logins,
and remove the missing ones (skipped per-user under dry run). -/
def completeStage (checkType : String) (now : Int) (dryRun : Bool)
    (entries : List LastActivityRecord) (doc₁ : DatabaseSchema) :
    DatabaseSchema × List String × Option String :=
  match getActivityRecords checkType doc₁ with
  | .error e => (doc₁, [], some e)
  | .ok allUsers =>
    let fetchedUserLogins := entries.map (fun entry => entry.login)
    let usersToRemove := allUsers.filter (fun user => !(fetchedUserLogins.contains user.login))
    if dryRun then (doc₁, [], none)
    else removeAll checkType now usersToRemove doc₁

/-- The final `await this.db.updateLastRun(fetchStartTime)` step. -/
def finishCycle (checkType : String) (doc₂ : DatabaseSchema) (rs : List String)
    (fetchStartTime now : Int) : FetchOutcome :=
  match updateLastRun checkType doc₂ fetchStartTime now with
  | .error e => ⟨doc₂, rs, some e⟩
  | .ok doc₃ => ⟨doc₃, rs, none⟩

/-- Dispatch on `activityResultType`: only a complete snapshot triggers the
reconciliation block. -/
def snapshotStage (checkType : String) (now : Int) (dryRun : Bool)
    (activityResultType : ActivityResultType) (entries : List LastActivityRecord)
    (doc₁ : DatabaseSchema) : DatabaseSchema × List String × Option String :=
  match activityResultType with
  | .incomplete => (doc₁, [], none)
  | .complete => completeStage checkType now dryRun entries doc₁

/-- Rest of the cycle after the snapshot stage: a rejection there aborts,
otherwise `lastRun` is advanced. -/
def afterSnapshot (checkType : String) (fetchStartTime now : Int) :
    DatabaseSchema × List String × Option String → FetchOutcome
  | (doc₂, rs, some e) => ⟨doc₂, rs, some e⟩
  | (doc₂, rs, none) => finishCycle checkType doc₂ rs fetchStartTime now

/-- Rest of the cycle after the logging stage: a rejection there aborts,
otherwise the snapshot reconciliation and the `lastRun` update run. -/
def afterLog (checkType : String) (activityResultType : ActivityResultType) (dryRun : Bool)
    (entries : List LastActivityRecord) (fetchStartTime now : Int) :
    DatabaseSchema × Option String → FetchOutcome
  | (doc₁, some e) => ⟨doc₁, [], some e⟩
  | (doc₁, none) =>
    afterSnapshot checkType fetchStartTime now
      (snapshotStage checkType now dryRun activityResultType entries doc₁)

/-- `DormantAccountCheck.fetchActivity`: fetch (a given, possibly rejecting
batch), log every record, reconcile a complete snapshot, then advance
`lastRun` to the cycle's start timestamp.  `fetchStartTime` is the `Date`
captured on entry; `now` is the wall clock used for `lastUpdated` stamps;
any rejection is rethrown, surfaced in `FetchOutcome.error`. -/
def fetchActivity (checkType : String) (activityResultType : ActivityResultType)
    (dryRun : Bool)
    (logStep : LastActivityRecord → DatabaseSchema → Except String DatabaseSchema)
    (doc₀ : DatabaseSchema) (fetchStartTime : Int)
    (fetchResult : Except String (List LastActivityRecord)) (now : Int) : FetchOutcome :=
  match fetchResult with
  | .error e => ⟨doc₀, [], some e⟩
  | .ok entries =>
    afterLog checkType activityResultType dryRun entries fetchStartTime now
      (logAll logStep entries doc₀)

theorem fetchActivity_ok_eq (checkType : String) (art : ActivityResultType) (dryRun : Bool)
    (logStep : LastActivityRecord → DatabaseSchema → Except String DatabaseSchema)
    (doc₀ : DatabaseSchema) (fetchStartTime : Int) (entries : List LastActivityRecord)
    (now : Int) :
    fetchActivity checkType art dryRun logStep doc₀ fetchStartTime (.ok entries) now =
      afterLog checkType art dryRun entries fetchStartTime now
        (logAll logStep entries doc₀) := rfl

theorem writeWithSort_ok_getState (doc : DatabaseSchema) (now : Int) (d : DatabaseSchema)
    (h : writeWithSort doc now = .ok d) :
    ∃ st, getState doc = some st ∧ getState d = some { st with lastUpdated := now } := by
  unfold writeWithSort at h
  cases hst : getState doc with
  | none => rw [hst] at h; exact absurd h (by simp)
  | some st =>
    rw [hst] at h
    injection h with h
    refine ⟨st, rfl, ?_⟩
    rw [← h]
    simp [getState, getValue]

theorem updateLastRun_ok_lastRun (checkType : String) (doc : DatabaseSchema)
    (ts now : Int) (d : DatabaseSchema) (h : updateLastRun checkType doc ts now = .ok d) :
    ∃ st, getState d = some st ∧ st.lastRun = ts := by
  unfold updateLastRun at h
  cases hv : validateCheckType checkType doc with
  | error e => rw [hv] at h; exact absurd h (by simp)
  | ok u =>
    rw [hv] at h
    cases hst : getState doc with
    | none => rw [hst] at h; exact absurd h (by simp)
    | some st =>
      rw [hst] at h
      have hw : writeWithSort (setKey doc "_state" (.state { st with lastRun := ts })) now =
          .ok d := h
      obtain ⟨st', hst', hd⟩ := writeWithSort_ok_getState _ now d hw
      have heq : st' = { st with lastRun := ts } := by
        have h2 := getState_eq _ _
          (getValue_setKey_self doc "_state" (.state { st with lastRun := ts }))
        rw [hst'] at h2
        exact Option.some_inj.mp h2
      subst heq
      exact ⟨_, hd, rfl⟩

theorem finishCycle_success_lastRun (checkType : String) (doc₂ : DatabaseSchema)
    (rs : List String) (fetchStartTime now : Int)
    (h : (finishCycle checkType doc₂ rs fetchStartTime now).error = none) :
    ∃ st, getState (finishCycle checkType doc₂ rs fetchStartTime now).doc = some st ∧
      st.lastRun = fetchStartTime := by
  unfold finishCycle at h ⊢
  cases hu : updateLastRun checkType doc₂ fetchStartTime now with
  | error e => rw [hu] at h; exact absurd h (by simp)
  | ok doc₃ =>
    rw [hu] at h
    show ∃ st, getState doc₃ = some st ∧ st.lastRun = fetchStartTime
    exact updateLastRun_ok_lastRun checkType doc₂ fetchStartTime now doc₃ hu

/-- C5: a rejected fetch aborts the whole cycle with the store untouched
(in particular `lastRun` is not advanced); a cycle that completes without
error has `lastRun` equal to the timestamp captured at the start of the
cycle (`fetchStartTime`), not any later completion time. -/
theorem fetchActivity_lastRun_semantics (checkType : String) (art : ActivityResultType)
    (dryRun : Bool)
    (logStep : LastActivityRecord → DatabaseSchema → Except String DatabaseSchema)
    (doc₀ : DatabaseSchema) (fetchStartTime : Int)
    (fetchResult : Except String (List LastActivityRecord)) (now : Int) :
    (∀ e, fetchResult = .error e →
      fetchActivity checkType art dryRun logStep doc₀ fetchStartTime fetchResult now =
        ⟨doc₀, [], some e⟩) ∧
    ((fetchActivity checkType art dryRun logStep doc₀ fetchStartTime fetchResult now).error =
        none →
      ∃ st, getState
          (fetchActivity checkType art dryRun logStep doc₀ fetchStartTime fetchResult now).doc =
          some st ∧ st.lastRun = fetchStartTime) := by
  constructor
  · intro e he
    rw [he]
    rfl
  · intro herr
    cases fetchResult with
    | error e => exact absurd herr (by simp [fetchActivity])
    | ok entries =>
      rw [fetchActivity_ok_eq] at herr ⊢
      cases hl : logAll logStep entries doc₀ with
      | mk doc₁ oerr =>
        rw [hl] at herr
        cases oerr with
        | some e => exact absurd herr (by simp [afterLog])
        | none =>
          rw [show afterLog checkType art dryRun entries fetchStartTime now (doc₁, none) =
              afterSnapshot checkType fetchStartTime now
                (snapshotStage checkType now dryRun art entries doc₁) from rfl] at herr ⊢
          cases hs : snapshotStage checkType now dryRun art entries doc₁ with
          | mk doc₂ p =>
            rw [hs] at herr
            obtain ⟨rs, oerr₂⟩ := p
            cases oerr₂ with
            | some e => exact absurd herr (by simp [afterSnapshot])
            | none =>
              exact finishCycle_success_lastRun checkType doc₂ rs fetchStartTime now herr

/-- Witness for C5: a rejecting fetch on a concrete store, and a completed
cycle whose `lastRun` equals the start-of-cycle timestamp. -/
theorem fetchActivity_lastRun_semantics_witness :
    fetchActivity "c" .incomplete false (defaultLogStep 5)
        [("_state", .state ⟨11, "c", 0⟩)] 99 (.error "fetch down") 5 =
      ⟨[("_state", .state ⟨11, "c", 0⟩)], [], some "fetch down"⟩ ∧
    ∃ st, getState (fetchActivity "c" .incomplete false (defaultLogStep 5)
        [("_state", .state ⟨11, "c", 0⟩)] 99 (.ok [⟨"alice", some 1, "t"⟩]) 5).doc =
        some st ∧ st.lastRun = 99 := by
  constructor
  · exact (fetchActivity_lastRun_semantics "c" .incomplete false (defaultLogStep 5)
      [("_state", .state ⟨11, "c", 0⟩)] 99 (.error "fetch down") 5).1 "fetch down" rfl
  · exact (fetchActivity_lastRun_semantics "c" .incomplete false (defaultLogStep 5)
      [("_state", .state ⟨11, "c", 0⟩)] 99 (.ok [⟨"alice", some 1, "t"⟩]) 5).2 (by rfl)

/-- C10: a fetch cycle is not atomic over account records.  On this concrete
input the second logging step rejects: the whole cycle rejects and `lastRun`
stays at its old value `11`, yet the upsert for the first record (`good`) —
absent before the cycle — remains persisted in the final document. -/
theorem fetchActivity_not_atomic_on_logging_failure :
    (fetchActivity "c" .incomplete false
        (fun r d => if r.login = "bad" then .error "boom" else updateUserActivity d r 5)
        [("_state", .state ⟨11, "c", 0⟩)] 99
        (.ok [⟨"good", some 1, "t"⟩, ⟨"bad", some 2, "t"⟩]) 5).error = some "boom" ∧
    getValue (fetchActivity "c" .incomplete false
        (fun r d => if r.login = "bad" then .error "boom" else updateUserActivity d r 5)
        [("_state", .state ⟨11, "c", 0⟩)] 99
        (.ok [⟨"good", some 1, "t"⟩, ⟨"bad", some 2, "t"⟩]) 5).doc "good" =
      some (.user ⟨some 1, "t"⟩) ∧
    getValue [("_state", DocValue.state ⟨11, "c", 0⟩)] "good" = none ∧
    getState (fetchActivity "c" .incomplete false
        (fun r d => if r.login = "bad" then .error "boom" else updateUserActivity d r 5)
        [("_state", .state ⟨11, "c", 0⟩)] 99
        (.ok [⟨"good", some 1, "t"⟩, ⟨"bad", some 2, "t"⟩]) 5).doc =
      some ⟨11, "c", 5⟩ := by
  refine ⟨?_, ?_, ?_, ?_⟩ <;> rfl

/-! Complete-snapshot reconciliation (C2): well-formed documents and
preservation lemmas. -/

/-- The non-metadata keys of the document, in document order. -/
def userKeys (doc : DatabaseSchema) : List String :=
  (doc.filter (fun kv => kv.1 != "_state")).map Prod.fst

theorem getValue_isSome_iff (doc : DatabaseSchema) (l : String) :
    (getValue doc l).isSome = true ↔ ∃ kv ∈ doc, kv.1 = l := by
  induction doc with
  | nil => simp [getValue]
  | cons kv rest ih =>
    cases hb : (kv.1 == l) with
    | true =>
      simp only [getValue, hb]
      constructor
      · intro _
        exact ⟨kv, List.mem_cons_self kv rest, by simpa using hb⟩
      · intro _
        rfl
    | false =>
      simp only [getValue, hb]
      rw [ih]
      constructor
      · rintro ⟨kv', h₁, h₂⟩
        exact ⟨kv', List.mem_cons_of_mem kv h₁, h₂⟩
      · rintro ⟨kv', h₁, h₂⟩
        rcases List.mem_cons.mp h₁ with rfl | h₁'
        · exact absurd h₂ (by simpa using hb)
        · exact ⟨kv', h₁', h₂⟩

theorem getValue_eq_of_mem_nodup (doc : DatabaseSchema) (kv : String × DocValue)
    (hmem : kv ∈ doc) (hnd : (doc.map Prod.fst).Nodup) :
    getValue doc kv.1 = some kv.2 := by
  induction doc with
  | nil => exact absurd hmem (List.not_mem_nil kv)
  | cons hd rest ih =>
    rw [List.map_cons, List.nodup_cons] at hnd
    rcases List.mem_cons.mp hmem with rfl | hmem'
    · simp [getValue]
    · cases hb : (hd.1 == kv.1) with
      | true =>
        exfalso
        have heq : hd.1 = kv.1 := by simpa using hb
        exact hnd.1 (by rw [heq]; exact List.mem_map_of_mem Prod.fst hmem')
      | false =>
        simp only [getValue, hb]
        exact ih hmem' hnd.2

/-- With unique keys, reading a key is invariant under reordering the
entries. -/
theorem getValue_perm (doc₁ doc₂ : DatabaseSchema) (hp : List.Perm doc₁ doc₂)
    (hnd : (doc₁.map Prod.fst).Nodup) (l : String) :
    getValue doc₁ l = getValue doc₂ l := by
  by_cases hin : ∃ kv ∈ doc₁, kv.1 = l
  · obtain ⟨kv, hmem, rfl⟩ := hin
    rw [getValue_eq_of_mem_nodup doc₁ kv hmem hnd,
      getValue_eq_of_mem_nodup doc₂ kv (hp.mem_iff.mp hmem)
        (((hp.map Prod.fst).nodup_iff).mp hnd)]
  · push_neg at hin
    rw [getValue_eq_none doc₁ l hin,
      getValue_eq_none doc₂ l (fun kv h => hin kv (hp.mem_iff.mpr h))]

/-- A well-formed store document: a readable `_state` metadata record whose
stamped identity is unset or matches the instance, only user records under
the other keys, and unique keys (JS objects cannot repeat keys). -/
structure DocWF (checkType : String) (doc : DatabaseSchema) : Prop where
  state : ∃ st, getValue doc "_state" = some (.state st) ∧
    (st.checkType = "" ∨ st.checkType = checkType)
  users : ∀ kv ∈ doc, kv.1 ≠ "_state" → ∃ u, kv.2 = .user u
  nodup : (doc.map Prod.fst).Nodup

theorem DocWF.validate {checkType : String} {doc : DatabaseSchema}
    (h : DocWF checkType doc) : validateCheckType checkType doc = .ok () := by
  obtain ⟨st, hst, hok⟩ := h.state
  exact validateCheckType_ok checkType doc st hst hok

theorem userKeys_nodup {checkType : String} {doc : DatabaseSchema} (h : DocWF checkType doc) :
    (userKeys doc).Nodup :=
  List.Nodup.sublist (List.Sublist.map Prod.fst (List.filter_sublist doc)) h.nodup

theorem mem_userKeys_iff (doc : DatabaseSchema) (l : String) :
    l ∈ userKeys doc ↔ l ≠ "_state" ∧ (getValue doc l).isSome = true := by
  unfold userKeys
  rw [List.mem_map]
  constructor
  · rintro ⟨kv, hkv, rfl⟩
    refine ⟨by simpa using List.of_mem_filter hkv, ?_⟩
    rw [getValue_isSome_iff]
    exact ⟨kv, List.mem_of_mem_filter hkv, rfl⟩
  · rintro ⟨hne, hsome⟩
    obtain ⟨kv, hkv, rfl⟩ := (getValue_isSome_iff doc l).mp hsome
    exact ⟨kv, List.mem_filter.mpr ⟨hkv, by simpa using hne⟩, rfl⟩

theorem writeWithSort_wf {checkType : String} {doc : DatabaseSchema}
    (h : DocWF checkType doc) (now : Int) :
    ∃ d, writeWithSort doc now = .ok d ∧ DocWF checkType d ∧
      ∀ l, l ≠ "_state" → getValue d l = getValue doc l := by
  obtain ⟨st, hst, hok⟩ := h.state
  have hgs : getState doc = some st := getState_eq doc st hst
  have hfilnd : ((doc.filter (fun kv => kv.1 != "_state")).map Prod.fst).Nodup :=
    List.Nodup.sublist (List.Sublist.map Prod.fst (List.filter_sublist doc)) h.nodup
  refine ⟨_, writeWithSort_of_state doc st now hgs, ⟨?_, ?_, ?_⟩, ?_⟩
  · exact ⟨{ st with lastUpdated := now }, getValue_cons_self _ _ _ _ (by simp),
      by simpa using hok⟩
  · intro kv hkv hne
    rcases List.mem_cons.mp hkv with rfl | hkv'
    · exact absurd rfl hne
    · have hmem : kv ∈ doc.filter (fun kv => kv.1 != "_state") :=
        (sortEntries_perm _).mem_iff.mp hkv'
      exact h.users kv (List.mem_of_mem_filter hmem) (by simpa using List.of_mem_filter hmem)
  · rw [List.map_cons, List.nodup_cons]
    constructor
    · intro habs
      obtain ⟨kv, hkv, hfst⟩ := List.mem_map.mp habs
      have hmem : kv ∈ doc.filter (fun kv => kv.1 != "_state") :=
        (sortEntries_perm _).mem_iff.mp hkv
      have hne := List.of_mem_filter hmem
      rw [hfst] at hne
      simp at hne
    · rw [((sortEntries_perm _).map Prod.fst).nodup_iff]
      exact hfilnd
  · intro l hl
    rw [getValue_cons_ne _ _ _ _ (beq_eq_false_iff_ne.mpr (fun hh => hl hh.symm))]
    rw [getValue_perm _ _ (sortEntries_perm _)
      (by rw [((sortEntries_perm _).map Prod.fst).nodup_iff]; exact hfilnd) l]
    exact getValue_filter_ne doc "_state" l hl

theorem mem_setKey {doc : DatabaseSchema} {k : String} {v : DocValue}
    {kv : String × DocValue} (h : kv ∈ setKey doc k v) : kv = (k, v) ∨ kv ∈ doc := by
  unfold setKey at h
  by_cases ha : doc.any (fun kv => kv.1 == k) = true
  · rw [if_pos ha] at h
    obtain ⟨kv', hkv', heq⟩ := List.mem_map.mp h
    by_cases hb : (kv'.1 == k) = true
    · rw [if_pos hb] at heq
      exact Or.inl heq.symm
    · rw [if_neg hb] at heq
      exact Or.inr (heq ▸ hkv')
  · rw [if_neg ha] at h
    rcases List.mem_append.mp h with h' | h'
    · exact Or.inr h'
    · exact Or.inl (by simpa using h')

theorem map_fst_replace (doc : DatabaseSchema) (k : String) (v : DocValue) :
    (doc.map (fun kv => if kv.1 == k then (k, v) else kv)).map Prod.fst =
      doc.map Prod.fst := by
  induction doc with
  | nil => rfl
  | cons kv rest ih =>
    rw [List.map_cons, List.map_cons, List.map_cons, ih]
    congr 1
    cases hb : (kv.1 == k) with
    | true =>
      have heq : kv.1 = k := by simpa using hb
      simp [heq]
    | false => simp

theorem nodup_setKey {doc : DatabaseSchema} {k : String} {v : DocValue}
    (hnd : (doc.map Prod.fst).Nodup) : ((setKey doc k v).map Prod.fst).Nodup := by
  unfold setKey
  by_cases ha : doc.any (fun kv => kv.1 == k) = true
  · rw [if_pos ha, map_fst_replace]
    exact hnd
  · rw [if_neg ha, List.map_append]
    refine List.Nodup.append hnd (List.nodup_singleton k) ?_
    intro a ha₁ ha₂
    rw [List.map_singleton, List.mem_singleton] at ha₂
    subst ha₂
    apply ha
    rw [List.any_eq_true]
    obtain ⟨kv, hkv, hfst⟩ := List.mem_map.mp ha₁
    exact ⟨kv, hkv, by simpa using hfst⟩

theorem setKey_user_wf {checkType : String} {doc : DatabaseSchema}
    (h : DocWF checkType doc) (login : String) (hne : login ≠ "_state") (u : UserRecord) :
    DocWF checkType (setKey doc login (.user u)) := by
  obtain ⟨st, hst, hok⟩ := h.state
  refine ⟨⟨st, ?_, hok⟩, ?_, nodup_setKey h.nodup⟩
  · rw [getValue_setKey_ne doc login "_state" _ (fun hh => hne hh.symm)]
    exact hst
  · intro kv hkv hkne
    rcases mem_setKey hkv with rfl | hmem
    · exact ⟨u, rfl⟩
    · exact h.users kv hmem hkne

theorem updateUserActivity_wf {checkType : String} {doc : DatabaseSchema}
    (h : DocWF checkType doc) (rec₀ : LastActivityRecord)
    (hlog : rec₀.login ≠ "_state") (now : Int) :
    ∃ d, updateUserActivity doc rec₀ now = .ok d ∧ DocWF checkType d ∧
      getValue d rec₀.login = some (.user ⟨rec₀.lastActivity, rec₀.activityType⟩) ∧
      ∀ l, l ≠ "_state" → l ≠ rec₀.login → getValue d l = getValue doc l := by
  have hwf' := setKey_user_wf h rec₀.login hlog ⟨rec₀.lastActivity, rec₀.activityType⟩
  obtain ⟨d, hw, hdwf, hvals⟩ := writeWithSort_wf hwf' now
  refine ⟨d, hw, hdwf, ?_, ?_⟩
  · rw [hvals rec₀.login hlog, getValue_setKey_self]
  · intro l h₁ h₂
    rw [hvals l h₁, getValue_setKey_ne doc rec₀.login l _ h₂]

theorem logAll_default_wf {checkType : String} (now : Int)
    (entries : List LastActivityRecord) {doc : DatabaseSchema} (h : DocWF checkType doc)
    (hent : ∀ e ∈ entries, e.login ≠ "_state") :
    ∃ d, logAll (defaultLogStep now) entries doc = (d, none) ∧ DocWF checkType d ∧
      ∀ l, l ≠ "_state" →
        ((getValue d l).isSome = true ↔
          (getValue doc l).isSome = true ∨ l ∈ entries.map (fun e => e.login)) := by
  induction entries generalizing doc with
  | nil => exact ⟨doc, rfl, h, fun l _ => by simp⟩
  | cons e rest ih =>
    obtain ⟨d₁, hw, hwf₁, hself, hothers⟩ :=
      updateUserActivity_wf h e (hent e (List.mem_cons_self e rest)) now
    obtain ⟨d, hrest, hwf, hiff⟩ := ih hwf₁ (fun e' he' => hent e' (List.mem_cons_of_mem e he'))
    refine ⟨d, ?_, hwf, ?_⟩
    · show (match defaultLogStep now e doc with
        | .error err => (doc, some err)
        | .ok doc' => logAll (defaultLogStep now) rest doc') = (d, none)
      rw [show defaultLogStep now e doc = updateUserActivity doc e now from rfl, hw]
      exact hrest
    · intro l hl
      rw [hiff l hl]
      by_cases hle : l = e.login
      · subst hle
        refine iff_of_true (Or.inl ?_) (Or.inr (by simp))
        rw [hself]
        rfl
      · rw [hothers l hl hle]
        simp [hle]

theorem mapE_user_records (l : List (String × DocValue))
    (h : ∀ kv ∈ l, ∃ u, kv.2 = .user u) :
    ∃ rs, mapE (fun kv =>
        match kv.2 with
        | .user u => .ok (⟨kv.1, u.lastActivity, u.activityType⟩ : LastActivityRecord)
        | .state _ => .error "Unexpected non-user record found") l = .ok rs ∧
      rs.map (fun r => r.login) = l.map Prod.fst := by
  induction l with
  | nil => exact ⟨[], rfl, rfl⟩
  | cons kv rest ih =>
    obtain ⟨key, val⟩ := kv
    obtain ⟨u, hu⟩ := h (key, val) (List.mem_cons_self _ rest)
    have hval : val = .user u := hu
    subst hval
    obtain ⟨rs, hrs, hmap⟩ := ih (fun kv' h' => h kv' (List.mem_cons_of_mem _ h'))
    refine ⟨⟨key, u.lastActivity, u.activityType⟩ :: rs, ?_, by simp [hmap]⟩
    simp only [mapE, hrs]

theorem getActivityRecords_wf {checkType : String} {doc : DatabaseSchema}
    (h : DocWF checkType doc) :
    ∃ users, getActivityRecords checkType doc = .ok users ∧
      users.map (fun r => r.login) = userKeys doc := by
  obtain ⟨rs, hrs, hmap⟩ := mapE_user_records (doc.filter (fun kv => kv.1 != "_state"))
    (fun kv hkv => h.users kv (List.mem_of_mem_filter hkv)
      (by simpa using List.of_mem_filter hkv))
  refine ⟨rs, ?_, hmap⟩
  unfold getActivityRecords
  rw [h.validate]
  exact hrs

theorem filter_ne_wf {checkType : String} {doc : DatabaseSchema}
    (h : DocWF checkType doc) (login : String) (hne : login ≠ "_state") :
    DocWF checkType (doc.filter (fun kv => kv.1 != login)) := by
  obtain ⟨st, hst, hok⟩ := h.state
  refine ⟨⟨st, ?_, hok⟩, ?_, ?_⟩
  · rw [getValue_filter_ne doc login "_state" (fun hh => hne hh.symm)]
    exact hst
  · intro kv hkv hkne
    exact h.users kv (List.mem_of_mem_filter hkv) hkne
  · exact List.Nodup.sublist (List.Sublist.map Prod.fst (List.filter_sublist doc)) h.nodup

theorem removeUserActivityRecord_wf {checkType : String} {doc : DatabaseSchema}
    (h : DocWF checkType doc) (login : String) (hne : login ≠ "_state") (now : Int) :
    ∃ d b, removeUserActivityRecord checkType doc login now = .ok (d, b) ∧
      DocWF checkType d := by
  have hv := h.validate
  by_cases hg : (getValue doc login).isNone = true
  · exact ⟨doc, false, by simp [removeUserActivityRecord, hv, hg], h⟩
  · obtain ⟨d, hw, hdwf, _⟩ := writeWithSort_wf (filter_ne_wf h login hne) now
    exact ⟨d, true, by simp [removeUserActivityRecord, hv, hg, hne, hw], hdwf⟩

theorem removeAll_wf {checkType : String} (now : Int) (us : List LastActivityRecord)
    {doc : DatabaseSchema} (h : DocWF checkType doc)
    (hus : ∀ u ∈ us, u.login ≠ "_state") :
    ∃ d, removeAll checkType now us doc = (d, us.map (fun u => u.login), none) ∧
      DocWF checkType d := by
  induction us generalizing doc with
  | nil => exact ⟨doc, rfl, h⟩
  | cons u rest ih =>
    obtain ⟨d₁, b, hrem, hwf₁⟩ :=
      removeUserActivityRecord_wf h u.login (hus u (List.mem_cons_self u rest)) now
    obtain ⟨d, hrest, hwf⟩ := ih hwf₁ (fun u' hu' => hus u' (List.mem_cons_of_mem u hu'))
    refine ⟨d, ?_, hwf⟩
    show (match removeUserActivityRecord checkType doc u.login now with
      | .error e => (doc, [u.login], some e)
      | .ok (doc', _) =>
        let r := removeAll checkType now rest doc'
        (r.1, u.login :: r.2.1, r.2.2)) = (d, u.login :: rest.map (fun u => u.login), none)
    rw [hrem]
    show ((removeAll checkType now rest d₁).1,
        u.login :: (removeAll checkType now rest d₁).2.1,
        (removeAll checkType now rest d₁).2.2) =
      (d, u.login :: rest.map (fun u => u.login), none)
    rw [hrest]

theorem finishCycle_removals (checkType : String) (d : DatabaseSchema) (rs : List String)
    (t n : Int) : (finishCycle checkType d rs t n).removals = rs := by
  unfold finishCycle
  cases updateLastRun checkType d t n <;> rfl

theorem afterSnapshot_removals (checkType : String) (t n : Int) (d : DatabaseSchema)
    (rs : List String) (oe : Option String) :
    (afterSnapshot checkType t n (d, rs, oe)).removals = rs := by
  cases oe with
  | some e => rfl
  | none => exact finishCycle_removals checkType d rs t n

/-- C2: the store-removal operation in a fetch cycle is driven exactly by
the complete-snapshot diff.  With snapshot mode `'partial'` it is never
invoked; with dry-run it is never invoked; with mode `'complete'`, dry-run
off and the default logging path, it is invoked exactly once for each login
present in storage but absent from the fetched batch, and for no login of
the batch. -/
theorem fetchActivity_removal_discipline (checkType : String) (art : ActivityResultType)
    (dryRun : Bool)
    (logStep : LastActivityRecord → DatabaseSchema → Except String DatabaseSchema)
    (doc₀ : DatabaseSchema) (fetchStartTime now : Int)
    (entries : List LastActivityRecord)
    (hwf : DocWF checkType doc₀) (hent : ∀ e ∈ entries, e.login ≠ "_state") :
    (fetchActivity checkType .incomplete dryRun logStep doc₀ fetchStartTime
        (.ok entries) now).removals = [] ∧
    (fetchActivity checkType art true logStep doc₀ fetchStartTime
        (.ok entries) now).removals = [] ∧
    ((fetchActivity checkType .complete false (defaultLogStep now) doc₀ fetchStartTime
        (.ok entries) now).removals.Nodup ∧
      ∀ l, l ∈ (fetchActivity checkType .complete false (defaultLogStep now) doc₀
          fetchStartTime (.ok entries) now).removals ↔
        (l ≠ "_state" ∧ (getValue doc₀ l).isSome = true ∧
          l ∉ entries.map (fun e => e.login))) := by
  refine ⟨?_, ?_, ?_⟩
  · rw [fetchActivity_ok_eq]
    cases hl : logAll logStep entries doc₀ with
    | mk doc₁ oerr =>
      cases oerr with
      | some e => rfl
      | none =>
        show (afterSnapshot checkType fetchStartTime now (doc₁, [], none)).removals = []
        exact afterSnapshot_removals checkType fetchStartTime now doc₁ [] none
  · rw [fetchActivity_ok_eq]
    cases hl : logAll logStep entries doc₀ with
    | mk doc₁ oerr =>
      cases oerr with
      | some e => rfl
      | none =>
        cases art with
        | incomplete =>
          show (afterSnapshot checkType fetchStartTime now (doc₁, [], none)).removals = []
          exact afterSnapshot_removals checkType fetchStartTime now doc₁ [] none
        | complete =>
          show (afterSnapshot checkType fetchStartTime now
            (completeStage checkType now true entries doc₁)).removals = []
          unfold completeStage
          cases hg : getActivityRecords checkType doc₁ with
          | error e =>
            exact afterSnapshot_removals checkType fetchStartTime now doc₁ [] (some e)
          | ok allUsers =>
            show (afterSnapshot checkType fetchStartTime now (doc₁, [], none)).removals = []
            exact afterSnapshot_removals checkType fetchStartTime now doc₁ [] none
  · obtain ⟨doc₁, hlog, hwf₁, hkeys⟩ := logAll_default_wf now entries hwf hent
    obtain ⟨allUsers, hga, hmap⟩ := getActivityRecords_wf hwf₁
    have husers : ∀ u ∈ allUsers.filter
        (fun user => !((entries.map (fun entry => entry.login)).contains user.login)),
        u.login ≠ "_state" := by
      intro u hu
      have hmem : u ∈ allUsers := List.mem_of_mem_filter hu
      have hin : u.login ∈ userKeys doc₁ := by
        rw [← hmap]
        exact List.mem_map_of_mem (fun u => u.login) hmem
      exact ((mem_userKeys_iff doc₁ u.login).mp hin).1
    obtain ⟨docF, hremAll, hwfF⟩ := removeAll_wf now
      (allUsers.filter
        (fun user => !((entries.map (fun entry => entry.login)).contains user.login)))
      hwf₁ husers
    have hcs : completeStage checkType now false entries doc₁ =
        (docF, (allUsers.filter
          (fun user => !((entries.map (fun entry => entry.login)).contains user.login))).map
            (fun u => u.login), none) := by
      unfold completeStage
      rw [hga]
      exact hremAll
    rw [fetchActivity_ok_eq, hlog]
    rw [show afterLog checkType .complete false entries fetchStartTime now (doc₁, none) =
        afterSnapshot checkType fetchStartTime now
          (completeStage checkType now false entries doc₁) from rfl]
    rw [hcs, afterSnapshot_removals]
    constructor
    · refine List.Nodup.sublist (List.Sublist.map _ (List.filter_sublist allUsers)) ?_
      rw [hmap]
      exact userKeys_nodup hwf₁
    · intro l
      rw [List.mem_map]
      constructor
      · rintro ⟨u, hu, rfl⟩
        have hmem : u ∈ allUsers := List.mem_of_mem_filter hu
        have hp := List.of_mem_filter hu
        have hin : u.login ∈ userKeys doc₁ := by
          rw [← hmap]
          exact List.mem_map_of_mem (fun u => u.login) hmem
        obtain ⟨hne, hsome⟩ := (mem_userKeys_iff doc₁ u.login).mp hin
        have hnotfetched : u.login ∉ entries.map (fun e => e.login) := by
          intro habs
          rw [Bool.not_eq_true', ← Bool.not_eq_true] at hp
          exact hp (List.elem_iff.mpr habs)
        have hsome₀ : (getValue doc₀ u.login).isSome = true := by
          rcases (hkeys u.login hne).mp hsome with h₀ | hfetch
          · exact h₀
          · exact absurd hfetch hnotfetched
        exact ⟨hne, hsome₀, hnotfetched⟩
      · rintro ⟨hne, hsome₀, hnotfetched⟩
        have hsome₁ : (getValue doc₁ l).isSome = true :=
          (hkeys l hne).mpr (Or.inl hsome₀)
        have hin : l ∈ userKeys doc₁ := (mem_userKeys_iff doc₁ l).mpr ⟨hne, hsome₁⟩
        rw [← hmap] at hin
        obtain ⟨u, hu, hul⟩ := List.mem_map.mp hin
        refine ⟨u, List.mem_filter.mpr ⟨hu, ?_⟩, hul⟩
        rw [hul, Bool.not_eq_true', ← Bool.not_eq_true]
        intro habs
        exact hnotfetched (List.elem_iff.mp habs)

/-- Witness for C2: stored logins `a`, `b`, `c`; fetched batch `[a]`.  The
complete-snapshot dry-run-off run removes exactly `b` and `c`; the
partial-snapshot and dry-run runs remove nobody. -/
theorem fetchActivity_removal_discipline_witness :
    ("b" ∈ (fetchActivity "c" .complete false (defaultLogStep 5)
        [("_state", .state ⟨0, "c", 0⟩), ("a", .user ⟨some 1, "t"⟩),
          ("b", .user ⟨some 2, "t"⟩), ("c", .user ⟨some 3, "t"⟩)] 99
        (.ok [⟨"a", some 5, "t"⟩]) 5).removals) ∧
    ("a" ∉ (fetchActivity "c" .complete false (defaultLogStep 5)
        [("_state", .state ⟨0, "c", 0⟩), ("a", .user ⟨some 1, "t"⟩),
          ("b", .user ⟨some 2, "t"⟩), ("c", .user ⟨some 3, "t"⟩)] 99
        (.ok [⟨"a", some 5, "t"⟩]) 5).removals) ∧
    (fetchActivity "c" .incomplete false (defaultLogStep 5)
        [("_state", .state ⟨0, "c", 0⟩), ("a", .user ⟨some 1, "t"⟩),
          ("b", .user ⟨some 2, "t"⟩), ("c", .user ⟨some 3, "t"⟩)] 99
        (.ok [⟨"a", some 5, "t"⟩]) 5).removals = [] ∧
    (fetchActivity "c" .complete true (defaultLogStep 5)
        [("_state", .state ⟨0, "c", 0⟩), ("a", .user ⟨some 1, "t"⟩),
          ("b", .user ⟨some 2, "t"⟩), ("c", .user ⟨some 3, "t"⟩)] 99
        (.ok [⟨"a", some 5, "t"⟩]) 5).removals = [] := by
  have hwf : DocWF "c" [("_state", .state ⟨0, "c", 0⟩), ("a", .user ⟨some 1, "t"⟩),
      ("b", .user ⟨some 2, "t"⟩), ("c", .user ⟨some 3, "t"⟩)] := by
    refine ⟨⟨⟨0, "c", 0⟩, rfl, Or.inr rfl⟩, ?_, by decide⟩
    intro kv hkv hne
    simp only [List.mem_cons, List.not_mem_nil, or_false] at hkv
    rcases hkv with rfl | rfl | rfl | rfl
    · exact absurd rfl hne
    · exact ⟨_, rfl⟩
    · exact ⟨_, rfl⟩
    · exact ⟨_, rfl⟩
  have hent : ∀ e ∈ [(⟨"a", some 5, "t"⟩ : LastActivityRecord)], e.login ≠ "_state" := by
    decide
  obtain ⟨h₁, h₂, hnd, hiff⟩ :=
    fetchActivity_removal_discipline "c" .complete false (defaultLogStep 5)
      [("_state", .state ⟨0, "c", 0⟩), ("a", .user ⟨some 1, "t"⟩),
        ("b", .user ⟨some 2, "t"⟩), ("c", .user ⟨some 3, "t"⟩)] 99 5
      [⟨"a", some 5, "t"⟩] hwf hent
  refine ⟨?_, ?_, h₁, h₂⟩
  · exact (hiff "b").mpr ⟨by decide, by decide, by decide⟩
  · intro habs
    exact absurd ((hiff "a").mp habs).2.2 (by decide)

/-! Dormancy classification (C8): the whitelist short-circuit in
`getAccountStatuses`. -/

inductive AccountStatus where
  | active
  | dormant
deriving Repr, DecidableEq

/-- Per-account body of the classification pass in `getAccountStatuses`:
the whitelist predicate is consulted first and short-circuits to active;
only otherwise is the dormancy predicate evaluated; a rejecting predicate
aborts (the `Promise.all` surfaces the rejection). -/
def classifyAccount (isWhitelisted isDormant : LastActivityRecord → Except String Bool)
    (record : LastActivityRecord) : Except String AccountStatus :=
  match isWhitelisted record with
  | .error e => .error e
  | .ok true => .ok .active
  | .ok false =>
    match isDormant record with
    | .error e => .error e
    | .ok true => .ok .dormant
    | .ok false => .ok .active

/-- The `(a, b) => a.login.localeCompare(b.login)` result-sort order. -/
def loginLe (a b : LastActivityRecord) : Prop := a.login ≤ b.login

instance : DecidableRel loginLe := fun a b =>
  decidable_of_iff (a.login.toList ≤ b.login.toList) String.le_iff_toList_le.symm

def sortByLogin (l : List LastActivityRecord) : List LastActivityRecord :=
  List.insertionSort loginLe l

/-- The categorized result map (`DormantAccountStatusMap` in `types.ts`). -/
structure DormantAccountStatusMap where
  active : List LastActivityRecord
  dormant : List LastActivityRecord
deriving Repr, DecidableEq

/-- `DormantAccountCheck.getAccountStatuses`: classify every account
(concurrently; a rejection aborts the whole pass), then sort both buckets by
login. -/
def getAccountStatuses (isWhitelisted isDormant : LastActivityRecord → Except String Bool)
    (accounts : List LastActivityRecord) : Except String DormantAccountStatusMap :=
  match mapE (fun r =>
      match classifyAccount isWhitelisted isDormant r with
      | .error e => .error e
      | .ok s => .ok (r, s)) accounts with
  | .error e => .error e
  | .ok pairs =>
    .ok ⟨sortByLogin ((pairs.filter (fun p => p.2 == AccountStatus.active)).map Prod.fst),
         sortByLogin ((pairs.filter (fun p => p.2 == AccountStatus.dormant)).map Prod.fst)⟩

theorem mapE_mem_ok {α β : Type} (f : α → Except String β) (l : List α) (ys : List β)
    (h : mapE f l = .ok ys) {a : α} (ha : a ∈ l) {b : β} (hb : f a = .ok b) : b ∈ ys := by
  induction l generalizing ys with
  | nil => exact absurd ha (List.not_mem_nil a)
  | cons x rest ih =>
    cases hfx : f x with
    | error e => rw [mapE, hfx] at h; exact absurd h (by simp)
    | ok bx =>
      cases hrest : mapE f rest with
      | error e => rw [mapE, hfx, hrest] at h; exact absurd h (by simp)
      | ok bs =>
        rw [mapE, hfx, hrest] at h
        have h' : Except.ok (ε := String) (bx :: bs) = .ok ys := h
        injection h' with h'
        subst h'
        rcases List.mem_cons.mp ha with rfl | ha'
        · rw [hfx] at hb
          injection hb with hb
          subst hb
          exact List.mem_cons_self _ _
        · exact List.mem_cons_of_mem bx (ih bs hrest ha')

/-- C8: a whitelisted account is classified active, the dormancy predicate
(whether it succeeds, fails, or is never evaluated) has no effect on that
account's classification, and in any successful pass the account lands in
the active bucket. -/
theorem whitelist_short_circuit
    (isWhitelisted d d' : LastActivityRecord → Except String Bool)
    (r : LastActivityRecord) (hw : isWhitelisted r = .ok true) :
    classifyAccount isWhitelisted d r = .ok .active ∧
    classifyAccount isWhitelisted d r = classifyAccount isWhitelisted d' r ∧
    (∀ accounts res, r ∈ accounts →
      getAccountStatuses isWhitelisted d accounts = .ok res → r ∈ res.active) := by
  have hc : classifyAccount isWhitelisted d r = .ok .active := by
    unfold classifyAccount
    rw [hw]
  have hc' : classifyAccount isWhitelisted d' r = .ok .active := by
    unfold classifyAccount
    rw [hw]
  refine ⟨hc, hc.trans hc'.symm, ?_⟩
  intro accounts res hmem hres
  unfold getAccountStatuses at hres
  cases hp : mapE (fun r =>
      match classifyAccount isWhitelisted d r with
      | .error e => .error e
      | .ok s => .ok (r, s)) accounts with
  | error e => rw [hp] at hres; exact absurd hres (by simp)
  | ok pairs =>
    rw [hp] at hres
    have hres' : Except.ok (ε := String) (DormantAccountStatusMap.mk
        (sortByLogin ((pairs.filter (fun p => p.2 == AccountStatus.active)).map Prod.fst))
        (sortByLogin ((pairs.filter (fun p => p.2 == AccountStatus.dormant)).map
          Prod.fst))) = .ok res := hres
    injection hres' with hres'
    have hpair : (r, AccountStatus.active) ∈ pairs :=
      mapE_mem_ok _ accounts pairs hp hmem (by rw [hc])
    have hr : r ∈ (pairs.filter (fun p => p.2 == AccountStatus.active)).map Prod.fst :=
      List.mem_map_of_mem Prod.fst (List.mem_filter.mpr ⟨hpair, by simp⟩)
    rw [← hres']
    exact ((List.perm_insertionSort loginLe _).mem_iff).mpr hr

/-- Witness for C8: a whitelisted account stays active even under a
dormancy predicate that rejects outright, and lands in the active bucket of
a concrete pass. -/
theorem whitelist_short_circuit_witness :
    classifyAccount (fun _ => .ok true) (fun _ => .error "dormancy rejected")
        ⟨"alice", none, "t"⟩ = .ok .active ∧
    classifyAccount (fun _ => .ok true) (fun _ => .error "dormancy rejected")
        ⟨"alice", none, "t"⟩ =
      classifyAccount (fun _ => .ok true) (fun _ => .ok false) ⟨"alice", none, "t"⟩ ∧
    (⟨"alice", none, "t"⟩ : LastActivityRecord) ∈
      (DormantAccountStatusMap.mk [⟨"alice", none, "t"⟩] []).active := by
  obtain ⟨h₁, h₂, h₃⟩ := whitelist_short_circuit (fun _ => .ok true)
    (fun _ => .error "dormancy rejected") (fun _ => .ok false) ⟨"alice", none, "t"⟩ rfl
  exact ⟨h₁, h₂, h₃ [⟨"alice", none, "t"⟩] ⟨[⟨"alice", none, "t"⟩], []⟩
    (List.mem_cons_self _ _) rfl⟩

/-! GithubIssueNotifier (`packages/github/src/provider/copilot.ts`): the
notification lifecycle, for C3 and C9.  The octokit calls are modelled as
pure result tables in `NotifierEnv`; the observable side effects of a run
are collected in a trace.  The trace records the effects of a step only
when that step completes; a rejected step surfaces only its error (which is
what the per-account `try`/`catch` observes). -/

/-- A notification issue restricted to the fields the lifecycle reads:
`number`, `title` (the login), `created_at`, `labels`. -/
structure Issue where
  number : Nat
  title : String
  createdAt : Int
  labels : List String
deriving Repr, DecidableEq

/-- `NotificationStatus.ACTIVE`. -/
def NotificationStatus.active : String := "became-active"

/-- `NotificationStatus.EXCLUDED`. -/
def NotificationStatus.excluded : String := "admin-exclusion"

/-- `NotificationStatus.PENDING`. -/
def NotificationStatus.pending : String := "pending-removal"

/-- `NotificationStatus.REMOVED`. -/
def NotificationStatus.removed : String := "user-removed"

/-- Result of the raw `removeLabel` API call: success, a 404 (label not on
the issue), or another failure. -/
inductive RemoveLabelOutcome where
  | ok
  | notFound
  | err (e : String)
deriving Repr, DecidableEq

/-- The external API surface the notifier touches, as settled results of
the corresponding octokit calls, plus the configured removal hook. -/
structure NotifierEnv where
  lookupResult : String → Except String (Option Issue)
  createResult : String → Except String Issue
  hook : Option (LastActivityRecord → Except String Bool)
  commentResult : Nat → Except String Unit
  addLabelResult : Nat → String → Except String Unit
  closeResult : Nat → Except String Unit
  removeLabelApi : Nat → String → RemoveLabelOutcome
  openIssues : List Issue

/-- Observable side effects of a notifier run. -/
inductive NotifierEffect where
  | hookInvoked (login : String)
  | issueCreated (login : String)
  | commentAdded (number : Nat)
  | labelAdded (number : Nat) (label : String)
  | labelRemoved (number : Nat) (label : String)
  | issueClosed (number : Nat)
deriving Repr, DecidableEq

/-- `hasLabel`. -/
def hasLabel (issue : Issue) (label : String) : Bool :=
  issue.labels.contains label

/-- `hasGracePeriodExpired`: the ticket age against the grace period via
`compareDatesAgainstDuration` (strict, rejecting on an invalid duration). -/
def hasGracePeriodExpired (gracePeriodMillis : Option Int) (now : Int) (issue : Issue) :
    Except String Bool :=
  compareDatesAgainstDuration gracePeriodMillis issue.createdAt now

/-- `removeLabelFromIssue`: a 404 is swallowed (the label was absent),
anything else rethrows. -/
def removeLabelFromIssue (env : NotifierEnv) (n : Nat) (label : String) :
    Except String (List NotifierEffect) :=
  match env.removeLabelApi n label with
  | .ok => .ok [.labelRemoved n label]
  | .notFound => .ok []
  | .err e => .error e

/-- The comment / `user-removed` label / close / strip-`pending-removal`
sequence ending the notifier's `removeAccount`. -/
def removeAccountCloseSteps (env : NotifierEnv) (n : Nat) :
    Except String (List NotifierEffect) :=
  match env.commentResult n with
  | .error e => .error e
  | .ok _ =>
    match env.addLabelResult n NotificationStatus.removed with
    | .error e => .error e
    | .ok _ =>
      match env.closeResult n with
      | .error e => .error e
      | .ok _ =>
        match removeLabelFromIssue env n NotificationStatus.pending with
        | .error e => .error e
        | .ok effs =>
          .ok ([.commentAdded n, .labelAdded n NotificationStatus.removed,
            .issueClosed n] ++ effs)

/-- `GithubIssueNotifier.removeAccount`: run the configured removal hook if
present (a rejection is logged and rethrown; a falsy result returns early,
leaving the ticket untouched), then comment, tag, close, and strip the
pending label. -/
def removeAccountNotifier (env : NotifierEnv) (user : LastActivityRecord)
    (notification : Issue) : Except String (List NotifierEffect) :=
  match env.hook with
  | some h =>
    match h user with
    | .error e => .error e
    | .ok removed =>
      if removed then
        match removeAccountCloseSteps env notification.number with
        | .error e => .error e
        | .ok effs => .ok (.hookInvoked user.login :: effs)
      else
        .ok [.hookInvoked user.login]
  | none => removeAccountCloseSteps env notification.number

/-- `notifyUser`: create the notification issue. -/
def notifyUser (env : NotifierEnv) (user : LastActivityRecord) :
    Except String (Issue × List NotifierEffect) :=
  match env.createResult user.login with
  | .error e => .error e
  | .ok issue => .ok (issue, [.issueCreated user.login])

/-- `closeNotificationForActiveUser`: comment, tag `became-active`, strip
`pending-removal`, then close. -/
def closeNotificationForActiveUser (env : NotifierEnv) (n : Nat) :
    Except String (List NotifierEffect) :=
  match env.commentResult n with
  | .error e => .error e
  | .ok _ =>
    match env.addLabelResult n NotificationStatus.active with
    | .error e => .error e
    | .ok _ =>
      match removeLabelFromIssue env n NotificationStatus.pending with
      | .error e => .error e
      | .ok effs =>
        match env.closeResult n with
        | .error e => .error e
        | .ok _ =>
          .ok ([.commentAdded n, .labelAdded n NotificationStatus.active] ++ effs ++
            [.issueClosed n])

/-- `findReactivatedUsers`: titles of open base-labelled issues whose login
is not in the current dormant set. -/
def findReactivatedUsers (env : NotifierEnv) (users : List LastActivityRecord) :
    List String :=
  (env.openIssues.filter
    (fun issue => !((users.map (fun user => user.login)).contains issue.title))).map
    (fun issue => issue.title)

/-- The synthetic placeholder notification pushed under dry run. -/
def placeholderIssue (login : String) (now : Int) : Issue :=
  ⟨0, login, now, []⟩

/-- Per-account outcome of the main loop body. -/
inductive UserOutcome where
  | skipped
  | notified (issue : Issue)
  | removed (issue : Issue)
  | excluded (issue : Issue)
  | inGracePeriod (issue : Issue)
deriving Repr, DecidableEq

/-- The body of the per-user `try` in `processDormantUsers`: skip already
reactivated logins; otherwise look up the open ticket and branch on the
exclusion label, the grace period, or absence (create / dry-run
placeholder). -/
def processUser (env : NotifierEnv) (dryRun : Bool) (gracePeriodMillis : Option Int)
    (now : Int) (reactivatedUsers : List String) (user : LastActivityRecord) :
    Except String (UserOutcome × List NotifierEffect) :=
  if reactivatedUsers.contains user.login then .ok (.skipped, [])
  else
    match env.lookupResult user.login with
    | .error e => .error e
    | .ok (some notification) =>
      if hasLabel notification NotificationStatus.excluded then
        .ok (.excluded notification, [])
      else
        match hasGracePeriodExpired gracePeriodMillis now notification with
        | .error e => .error e
        | .ok true =>
          if dryRun then .ok (.removed notification, [])
          else
            match removeAccountNotifier env user notification with
            | .error e => .error e
            | .ok effs => .ok (.removed notification, effs)
        | .ok false => .ok (.inGracePeriod notification, [])
    | .ok none =>
      if dryRun then .ok (.notified (placeholderIssue user.login now), [])
      else
        match notifyUser env user with
        | .error e => .error e
        | .ok (issue, effs) => .ok (.notified issue, effs)

/-- `ProcessingResult`: the six report buckets. -/
structure ProcessingResult where
  notified : List (String × Issue)
  removed : List (String × Issue)
  reactivated : List (String × Issue)
  excluded : List (String × Issue)
  inGracePeriod : List (String × Issue)
  errors : List (String × String)
deriving Repr, DecidableEq

def emptyResult : ProcessingResult := ⟨[], [], [], [], [], []⟩

/-- Push one account's outcome into its bucket (`result.xxx.push`). -/
def pushOutcome (res : ProcessingResult) (login : String) :
    UserOutcome → ProcessingResult
  | .skipped => res
  | .notified i => { res with notified := res.notified ++ [(login, i)] }
  | .removed i => { res with removed := res.removed ++ [(login, i)] }
  | .excluded i => { res with excluded := res.excluded ++ [(login, i)] }
  | .inGracePeriod i => { res with inGracePeriod := res.inGracePeriod ++ [(login, i)] }

/-- The main `for (const user of users)` loop: each account's failure is
caught and keyed by its login; the loop always continues. -/
def mainLoop (env : NotifierEnv) (dryRun : Bool) (gracePeriodMillis : Option Int)
    (now : Int) (reactivatedUsers : List String) :
    List LastActivityRecord → ProcessingResult × List NotifierEffect →
      ProcessingResult × List NotifierEffect
  | [], acc => acc
  | user :: rest, (res, effs) =>
    match processUser env dryRun gracePeriodMillis now reactivatedUsers user with
    | .error e =>
      mainLoop env dryRun gracePeriodMillis now reactivatedUsers rest
        ({ res with errors := res.errors ++ [(user.login, e)] }, effs)
    | .ok (o, effs') =>
      mainLoop env dryRun gracePeriodMillis now reactivatedUsers rest
        (pushOutcome res user.login o, effs ++ effs')

/-- One iteration of the reactivated-users loop: look the ticket up again,
close it unless dry-run, report under reactivated; an absent ticket reports
nothing. -/
def reactivatedStep (env : NotifierEnv) (dryRun : Bool) (username : String) :
    Except String (Option Issue × List NotifierEffect) :=
  match env.lookupResult username with
  | .error e => .error e
  | .ok none => .ok (none, [])
  | .ok (some notification) =>
    if dryRun then .ok (some notification, [])
    else
      match closeNotificationForActiveUser env notification.number with
      | .error e => .error e
      | .ok effs => .ok (some notification, effs)

/-- The `for (const username of reactivatedUsers)` loop, equally
fault-isolated. -/
def reactivatedLoop (env : NotifierEnv) (dryRun : Bool) :
    List String → ProcessingResult × List NotifierEffect →
      ProcessingResult × List NotifierEffect
  | [], acc => acc
  | username :: rest, (res, effs) =>
    match reactivatedStep env dryRun username with
    | .error e =>
      reactivatedLoop env dryRun rest
        ({ res with errors := res.errors ++ [(username, e)] }, effs)
    | .ok (none, effs') => reactivatedLoop env dryRun rest (res, effs ++ effs')
    | .ok (some notification, effs') =>
      reactivatedLoop env dryRun rest
        ({ res with reactivated := res.reactivated ++ [(username, notification)] },
          effs ++ effs')

/-- `GithubIssueNotifier.processDormantUsers`. -/
def processDormantUsers (env : NotifierEnv) (dryRun : Bool)
    (gracePeriodMillis : Option Int) (now : Int) (users : List LastActivityRecord) :
    ProcessingResult × List NotifierEffect :=
  reactivatedLoop env dryRun (findReactivatedUsers env users)
    (mainLoop env dryRun gracePeriodMillis now (findReactivatedUsers env users) users
      (emptyResult, []))

/-! Fault isolation of the notifier loops (C9), and the grace-period
removal branch (C3). -/

/-- How one account's own processing result shows up in the final report: a
rejection as an `errors` entry keyed by the login, a completed outcome as an
entry in its bucket. -/
def outcomeReported (res : ProcessingResult) (login : String) :
    Except String (UserOutcome × List NotifierEffect) → Prop
  | .error e => (login, e) ∈ res.errors
  | .ok (.skipped, _) => True
  | .ok (.notified i, _) => (login, i) ∈ res.notified
  | .ok (.removed i, _) => (login, i) ∈ res.removed
  | .ok (.excluded i, _) => (login, i) ∈ res.excluded
  | .ok (.inGracePeriod i, _) => (login, i) ∈ res.inGracePeriod

/-- Bucket-wise containment between two reports. -/
def resMono (r₁ r₂ : ProcessingResult) : Prop :=
  (∀ x ∈ r₁.notified, x ∈ r₂.notified) ∧
  (∀ x ∈ r₁.removed, x ∈ r₂.removed) ∧
  (∀ x ∈ r₁.reactivated, x ∈ r₂.reactivated) ∧
  (∀ x ∈ r₁.excluded, x ∈ r₂.excluded) ∧
  (∀ x ∈ r₁.inGracePeriod, x ∈ r₂.inGracePeriod) ∧
  (∀ x ∈ r₁.errors, x ∈ r₂.errors)

theorem resMono_refl (r : ProcessingResult) : resMono r r :=
  ⟨fun _ h => h, fun _ h => h, fun _ h => h, fun _ h => h, fun _ h => h, fun _ h => h⟩

theorem resMono_trans {r₁ r₂ r₃ : ProcessingResult} (h₁ : resMono r₁ r₂)
    (h₂ : resMono r₂ r₃) : resMono r₁ r₃ :=
  ⟨fun x h => h₂.1 x (h₁.1 x h), fun x h => h₂.2.1 x (h₁.2.1 x h),
   fun x h => h₂.2.2.1 x (h₁.2.2.1 x h), fun x h => h₂.2.2.2.1 x (h₁.2.2.2.1 x h),
   fun x h => h₂.2.2.2.2.1 x (h₁.2.2.2.2.1 x h),
   fun x h => h₂.2.2.2.2.2 x (h₁.2.2.2.2.2 x h)⟩

theorem resMono_push (res : ProcessingResult) (login : String) (o : UserOutcome) :
    resMono res (pushOutcome res login o) := by
  cases o with
  | skipped => exact resMono_refl res
  | notified i =>
    exact ⟨fun _ h => List.mem_append_left _ h, fun _ h => h, fun _ h => h,
      fun _ h => h, fun _ h => h, fun _ h => h⟩
  | removed i =>
    exact ⟨fun _ h => h, fun _ h => List.mem_append_left _ h, fun _ h => h,
      fun _ h => h, fun _ h => h, fun _ h => h⟩
  | excluded i =>
    exact ⟨fun _ h => h, fun _ h => h, fun _ h => h,
      fun _ h => List.mem_append_left _ h, fun _ h => h, fun _ h => h⟩
  | inGracePeriod i =>
    exact ⟨fun _ h => h, fun _ h => h, fun _ h => h, fun _ h => h,
      fun _ h => List.mem_append_left _ h, fun _ h => h⟩

theorem resMono_errors (res : ProcessingResult) (login e : String) :
    resMono res { res with errors := res.errors ++ [(login, e)] } :=
  ⟨fun _ h => h, fun _ h => h, fun _ h => h, fun _ h => h, fun _ h => h,
   fun _ h => List.mem_append_left _ h⟩

theorem resMono_reactivated (res : ProcessingResult) (username : String) (i : Issue) :
    resMono res { res with reactivated := res.reactivated ++ [(username, i)] } :=
  ⟨fun _ h => h, fun _ h => h, fun _ h => List.mem_append_left _ h,
   fun _ h => h, fun _ h => h, fun _ h => h⟩

theorem outcomeReported_mono {r₁ r₂ : ProcessingResult} (hm : resMono r₁ r₂)
    {login : String} {x : Except String (UserOutcome × List NotifierEffect)}
    (h : outcomeReported r₁ login x) : outcomeReported r₂ login x := by
  match x with
  | .error e => exact hm.2.2.2.2.2 _ h
  | .ok (.skipped, _) => trivial
  | .ok (.notified i, _) => exact hm.1 _ h
  | .ok (.removed i, _) => exact hm.2.1 _ h
  | .ok (.excluded i, _) => exact hm.2.2.2.1 _ h
  | .ok (.inGracePeriod i, _) => exact hm.2.2.2.2.1 _ h

theorem mainLoop_cons_error (env : NotifierEnv) (dryRun : Bool) (gp : Option Int)
    (now : Int) (ru : List String) (user : LastActivityRecord)
    (rest : List LastActivityRecord) (res : ProcessingResult)
    (effs : List NotifierEffect) (e : String)
    (hp : processUser env dryRun gp now ru user = .error e) :
    mainLoop env dryRun gp now ru (user :: rest) (res, effs) =
      mainLoop env dryRun gp now ru rest
        ({ res with errors := res.errors ++ [(user.login, e)] }, effs) := by
  show (match processUser env dryRun gp now ru user with
    | .error e =>
      mainLoop env dryRun gp now ru rest
        ({ res with errors := res.errors ++ [(user.login, e)] }, effs)
    | .ok (o, effs') =>
      mainLoop env dryRun gp now ru rest (pushOutcome res user.login o, effs ++ effs')) = _
  rw [hp]

theorem mainLoop_cons_ok (env : NotifierEnv) (dryRun : Bool) (gp : Option Int)
    (now : Int) (ru : List String) (user : LastActivityRecord)
    (rest : List LastActivityRecord) (res : ProcessingResult)
    (effs : List NotifierEffect) (o : UserOutcome) (effs' : List NotifierEffect)
    (hp : processUser env dryRun gp now ru user = .ok (o, effs')) :
    mainLoop env dryRun gp now ru (user :: rest) (res, effs) =
      mainLoop env dryRun gp now ru rest (pushOutcome res user.login o, effs ++ effs') := by
  show (match processUser env dryRun gp now ru user with
    | .error e =>
      mainLoop env dryRun gp now ru rest
        ({ res with errors := res.errors ++ [(user.login, e)] }, effs)
    | .ok (o, effs') =>
      mainLoop env dryRun gp now ru rest (pushOutcome res user.login o, effs ++ effs')) = _
  rw [hp]

theorem mainLoop_mono (env : NotifierEnv) (dryRun : Bool) (gp : Option Int) (now : Int)
    (ru : List String) :
    ∀ (us : List LastActivityRecord) (acc : ProcessingResult × List NotifierEffect),
      resMono acc.1 (mainLoop env dryRun gp now ru us acc).1 := by
  intro us
  induction us with
  | nil => intro acc; exact resMono_refl acc.1
  | cons user rest ih =>
    intro acc
    obtain ⟨res, effs⟩ := acc
    cases hp : processUser env dryRun gp now ru user with
    | error e =>
      rw [mainLoop_cons_error env dryRun gp now ru user rest res effs e hp]
      exact resMono_trans (resMono_errors res user.login e)
        (ih ({ res with errors := res.errors ++ [(user.login, e)] }, effs))
    | ok oe =>
      obtain ⟨o, effs'⟩ := oe
      rw [mainLoop_cons_ok env dryRun gp now ru user rest res effs o effs' hp]
      exact resMono_trans (resMono_push res user.login o)
        (ih (pushOutcome res user.login o, effs ++ effs'))

theorem mainLoop_reports (env : NotifierEnv) (dryRun : Bool) (gp : Option Int)
    (now : Int) (ru : List String) :
    ∀ (us : List LastActivityRecord) (acc : ProcessingResult × List NotifierEffect)
      (u : LastActivityRecord), u ∈ us →
        outcomeReported (mainLoop env dryRun gp now ru us acc).1 u.login
          (processUser env dryRun gp now ru u) := by
  intro us
  induction us with
  | nil => intro acc u hu; exact absurd hu (List.not_mem_nil u)
  | cons user rest ih =>
    intro acc u hu
    obtain ⟨res, effs⟩ := acc
    rcases List.mem_cons.mp hu with rfl | hu'
    · cases hp : processUser env dryRun gp now ru u with
      | error e =>
        rw [mainLoop_cons_error env dryRun gp now ru u rest res effs e hp]
        refine outcomeReported_mono (mainLoop_mono env dryRun gp now ru rest _) ?_
        show (u.login, e) ∈ res.errors ++ [(u.login, e)]
        exact List.mem_append_right _ (by simp)
      | ok oe =>
        obtain ⟨o, effs'⟩ := oe
        rw [mainLoop_cons_ok env dryRun gp now ru u rest res effs o effs' hp]
        refine outcomeReported_mono (mainLoop_mono env dryRun gp now ru rest _) ?_
        cases o with
        | skipped => trivial
        | notified i =>
          show (u.login, i) ∈ res.notified ++ [(u.login, i)]
          exact List.mem_append_right _ (by simp)
        | removed i =>
          show (u.login, i) ∈ res.removed ++ [(u.login, i)]
          exact List.mem_append_right _ (by simp)
        | excluded i =>
          show (u.login, i) ∈ res.excluded ++ [(u.login, i)]
          exact List.mem_append_right _ (by simp)
        | inGracePeriod i =>
          show (u.login, i) ∈ res.inGracePeriod ++ [(u.login, i)]
          exact List.mem_append_right _ (by simp)
    · cases hp : processUser env dryRun gp now ru user with
      | error e =>
        rw [mainLoop_cons_error env dryRun gp now ru user rest res effs e hp]
        exact ih _ u hu'
      | ok oe =>
        obtain ⟨o, effs'⟩ := oe
        rw [mainLoop_cons_ok env dryRun gp now ru user rest res effs o effs' hp]
        exact ih _ u hu'

theorem reactivatedLoop_cons_error (env : NotifierEnv) (dryRun : Bool)
    (username : String) (rest : List String) (res : ProcessingResult)
    (effs : List NotifierEffect) (e : String)
    (hp : reactivatedStep env dryRun username = .error e) :
    reactivatedLoop env dryRun (username :: rest) (res, effs) =
      reactivatedLoop env dryRun rest
        ({ res with errors := res.errors ++ [(username, e)] }, effs) := by
  show (match reactivatedStep env dryRun username with
    | .error e =>
      reactivatedLoop env dryRun rest
        ({ res with errors := res.errors ++ [(username, e)] }, effs)
    | .ok (none, effs') => reactivatedLoop env dryRun rest (res, effs ++ effs')
    | .ok (some notification, effs') =>
      reactivatedLoop env dryRun rest
        ({ res with reactivated := res.reactivated ++ [(username, notification)] },
          effs ++ effs')) = _
  rw [hp]

theorem reactivatedLoop_cons_none (env : NotifierEnv) (dryRun : Bool)
    (username : String) (rest : List String) (res : ProcessingResult)
    (effs effs' : List NotifierEffect)
    (hp : reactivatedStep env dryRun username = .ok (none, effs')) :
    reactivatedLoop env dryRun (username :: rest) (res, effs) =
      reactivatedLoop env dryRun rest (res, effs ++ effs') := by
  show (match reactivatedStep env dryRun username with
    | .error e =>
      reactivatedLoop env dryRun rest
        ({ res with errors := res.errors ++ [(username, e)] }, effs)
    | .ok (none, effs') => reactivatedLoop env dryRun rest (res, effs ++ effs')
    | .ok (some notification, effs') =>
      reactivatedLoop env dryRun rest
        ({ res with reactivated := res.reactivated ++ [(username, notification)] },
          effs ++ effs')) = _
  rw [hp]

theorem reactivatedLoop_cons_some (env : NotifierEnv) (dryRun : Bool)
    (username : String) (rest : List String) (res : ProcessingResult)
    (effs effs' : List NotifierEffect) (i : Issue)
    (hp : reactivatedStep env dryRun username = .ok (some i, effs')) :
    reactivatedLoop env dryRun (username :: rest) (res, effs) =
      reactivatedLoop env dryRun rest
        ({ res with reactivated := res.reactivated ++ [(username, i)] },
          effs ++ effs') := by
  show (match reactivatedStep env dryRun username with
    | .error e =>
      reactivatedLoop env dryRun rest
        ({ res with errors := res.errors ++ [(username, e)] }, effs)
    | .ok (none, effs') => reactivatedLoop env dryRun rest (res, effs ++ effs')
    | .ok (some notification, effs') =>
      reactivatedLoop env dryRun rest
        ({ res with reactivated := res.reactivated ++ [(username, notification)] },
          effs ++ effs')) = _
  rw [hp]

theorem reactivatedLoop_mono (env : NotifierEnv) (dryRun : Bool) :
    ∀ (rs : List String) (acc : ProcessingResult × List NotifierEffect),
      resMono acc.1 (reactivatedLoop env dryRun rs acc).1 := by
  intro rs
  induction rs with
  | nil => intro acc; exact resMono_refl acc.1
  | cons username rest ih =>
    intro acc
    obtain ⟨res, effs⟩ := acc
    cases hp : reactivatedStep env dryRun username with
    | error e =>
      rw [reactivatedLoop_cons_error env dryRun username rest res effs e hp]
      exact resMono_trans (resMono_errors res username e)
        (ih ({ res with errors := res.errors ++ [(username, e)] }, effs))
    | ok oe =>
      obtain ⟨oi, effs'⟩ := oe
      cases oi with
      | none =>
        rw [reactivatedLoop_cons_none env dryRun username rest res effs effs' hp]
        exact ih (res, effs ++ effs')
      | some i =>
        rw [reactivatedLoop_cons_some env dryRun username rest res effs effs' i hp]
        exact resMono_trans (resMono_reactivated res username i)
          (ih ({ res with reactivated := res.reactivated ++ [(username, i)] },
            effs ++ effs'))

/-- Shared core of C9 and C3: every account in the batch has its own
outcome — a caught error or a bucket entry — present in the final report,
independently of the other accounts. -/
theorem processDormantUsers_outcome_mem (env : NotifierEnv) (dryRun : Bool)
    (gp : Option Int) (now : Int) (users : List LastActivityRecord)
    (u : LastActivityRecord) (hu : u ∈ users) :
    outcomeReported (processDormantUsers env dryRun gp now users).1 u.login
      (processUser env dryRun gp now (findReactivatedUsers env users) u) := by
  unfold processDormantUsers
  exact outcomeReported_mono
    (reactivatedLoop_mono env dryRun (findReactivatedUsers env users) _)
    (mainLoop_reports env dryRun gp now (findReactivatedUsers env users) users
      (emptyResult, []) u hu)

/-- C9: one account's failure during `processDormantUsers` is caught
individually and reported in the error list keyed by that login, and every
other account of the batch is still processed and reported in its own
bucket: for each account the report contains exactly its own outcome,
regardless of what happened to the rest of the batch. -/
theorem processDormant_isolates_failures (env : NotifierEnv) (dryRun : Bool)
    (gp : Option Int) (now : Int) (users : List LastActivityRecord) :
    ∀ u ∈ users,
      outcomeReported (processDormantUsers env dryRun gp now users).1 u.login
        (processUser env dryRun gp now (findReactivatedUsers env users) u) :=
  fun u hu => processDormantUsers_outcome_mem env dryRun gp now users u hu

/-- Witness for C9: a two-account batch where `bad`'s ticket lookup rejects;
`bad` lands in `errors` keyed by its login and `good` is still notified. -/
theorem processDormant_isolates_failures_witness :
    ("bad", "lookup failed") ∈
      (processDormantUsers
        ⟨fun l => if l = "bad" then .error "lookup failed" else .ok none,
          fun l => .ok ⟨3, l, 0, []⟩, none, fun _ => .ok (), fun _ _ => .ok (),
          fun _ => .ok (), fun _ _ => .ok, []⟩
        false (some 10) 100
        [⟨"good", some 1, "t"⟩, ⟨"bad", some 2, "t"⟩]).1.errors ∧
    ("good", ⟨3, "good", 0, []⟩) ∈
      (processDormantUsers
        ⟨fun l => if l = "bad" then .error "lookup failed" else .ok none,
          fun l => .ok ⟨3, l, 0, []⟩, none, fun _ => .ok (), fun _ _ => .ok (),
          fun _ => .ok (), fun _ _ => .ok, []⟩
        false (some 10) 100
        [⟨"good", some 1, "t"⟩, ⟨"bad", some 2, "t"⟩]).1.notified := by
  constructor
  · exact processDormant_isolates_failures
      ⟨fun l => if l = "bad" then .error "lookup failed" else .ok none,
        fun l => .ok ⟨3, l, 0, []⟩, none, fun _ => .ok (), fun _ _ => .ok (),
        fun _ => .ok (), fun _ _ => .ok, []⟩
      false (some 10) 100 [⟨"good", some 1, "t"⟩, ⟨"bad", some 2, "t"⟩]
      ⟨"bad", some 2, "t"⟩ (by simp)
  · exact processDormant_isolates_failures
      ⟨fun l => if l = "bad" then .error "lookup failed" else .ok none,
        fun l => .ok ⟨3, l, 0, []⟩, none, fun _ => .ok (), fun _ _ => .ok (),
        fun _ => .ok (), fun _ _ => .ok, []⟩
      false (some 10) 100 [⟨"good", some 1, "t"⟩, ⟨"bad", some 2, "t"⟩]
      ⟨"good", some 1, "t"⟩ (by simp)

/-- C3 (amended): for a dormant account with an open, non-excluded ticket
whose age exceeds the grace period, when dry-run is false and the configured
removal hook runs and returns success, `processDormantUsers` invokes the
hook exactly once, closes the ticket, and reports the account under removed.
(The counterexample settles the original claim's stronger reading: the
account is reported removed even when the hook never ran.) -/
theorem processDormant_graceExpired_removes (env : NotifierEnv) (gp : Option Int)
    (now : Int) (users : List LastActivityRecord) (u : LastActivityRecord)
    (notif : Issue) (h : LastActivityRecord → Except String Bool)
    (hmem : u ∈ users)
    (hreact : ((findReactivatedUsers env users).contains u.login) = false)
    (hlook : env.lookupResult u.login = .ok (some notif))
    (hexcl : hasLabel notif NotificationStatus.excluded = false)
    (hgrace : hasGracePeriodExpired gp now notif = .ok true)
    (hhook : env.hook = some h)
    (hres : h u = .ok true)
    (hcomment : env.commentResult notif.number = .ok ())
    (hlabel : env.addLabelResult notif.number NotificationStatus.removed = .ok ())
    (hclose : env.closeResult notif.number = .ok ())
    (hrm : env.removeLabelApi notif.number NotificationStatus.pending = .ok) :
    processUser env false gp now (findReactivatedUsers env users) u =
      .ok (.removed notif,
        [.hookInvoked u.login, .commentAdded notif.number,
          .labelAdded notif.number NotificationStatus.removed,
          .issueClosed notif.number,
          .labelRemoved notif.number NotificationStatus.pending]) ∧
    List.count (NotifierEffect.hookInvoked u.login)
      [NotifierEffect.hookInvoked u.login, .commentAdded notif.number,
        .labelAdded notif.number NotificationStatus.removed,
        .issueClosed notif.number,
        .labelRemoved notif.number NotificationStatus.pending] = 1 ∧
    NotifierEffect.issueClosed notif.number ∈
      [NotifierEffect.hookInvoked u.login, .commentAdded notif.number,
        .labelAdded notif.number NotificationStatus.removed,
        .issueClosed notif.number,
        .labelRemoved notif.number NotificationStatus.pending] ∧
    (u.login, notif) ∈ (processDormantUsers env false gp now users).1.removed := by
  have hstep : processUser env false gp now (findReactivatedUsers env users) u =
      .ok (.removed notif,
        [.hookInvoked u.login, .commentAdded notif.number,
          .labelAdded notif.number NotificationStatus.removed,
          .issueClosed notif.number,
          .labelRemoved notif.number NotificationStatus.pending]) := by
    have hreact' : u.login ∉ findReactivatedUsers env users := by
      intro habs
      have hc : (findReactivatedUsers env users).contains u.login = true :=
        List.elem_iff.mpr habs
      rw [hreact] at hc
      exact Bool.false_ne_true hc
    simp [processUser, removeAccountNotifier, removeAccountCloseSteps,
      removeLabelFromIssue, hreact', hlook, hexcl, hgrace, hhook, hres, hcomment,
      hlabel, hclose, hrm]
  refine ⟨hstep, ?_, by simp, ?_⟩
  · simp [List.count_cons]
  · have H := processDormantUsers_outcome_mem env false gp now users u hmem
    rw [hstep] at H
    exact H

/-- Counterexample to C3 as stated: the account is reported under `removed`
even when the removal hook was not allowed to run.  Under dry run the hook
is never invoked (empty effect trace) yet `bob` lands in `removed`; with a
hook that returns false, the ticket is never closed (the trace holds only
the hook invocation) yet `bob` again lands in `removed`. -/
theorem processDormant_removed_reporting_counterexample :
    (("bob", (⟨7, "bob", 0, ["notify"]⟩ : Issue)) ∈
        (processDormantUsers
          ⟨fun _ => .ok (some ⟨7, "bob", 0, ["notify"]⟩), fun l => .ok ⟨9, l, 0, []⟩,
            some (fun _ => .ok true), fun _ => .ok (), fun _ _ => .ok (),
            fun _ => .ok (), fun _ _ => .ok, []⟩
          true (some 10) 100 [⟨"bob", none, "t"⟩]).1.removed ∧
      (processDormantUsers
        ⟨fun _ => .ok (some ⟨7, "bob", 0, ["notify"]⟩), fun l => .ok ⟨9, l, 0, []⟩,
          some (fun _ => .ok true), fun _ => .ok (), fun _ _ => .ok (),
          fun _ => .ok (), fun _ _ => .ok, []⟩
        true (some 10) 100 [⟨"bob", none, "t"⟩]).2 = []) ∧
    (("bob", (⟨7, "bob", 0, ["notify"]⟩ : Issue)) ∈
        (processDormantUsers
          ⟨fun _ => .ok (some ⟨7, "bob", 0, ["notify"]⟩), fun l => .ok ⟨9, l, 0, []⟩,
            some (fun _ => .ok false), fun _ => .ok (), fun _ _ => .ok (),
            fun _ => .ok (), fun _ _ => .ok, []⟩
          false (some 10) 100 [⟨"bob", none, "t"⟩]).1.removed ∧
      (processDormantUsers
        ⟨fun _ => .ok (some ⟨7, "bob", 0, ["notify"]⟩), fun l => .ok ⟨9, l, 0, []⟩,
          some (fun _ => .ok false), fun _ => .ok (), fun _ _ => .ok (),
          fun _ => .ok (), fun _ _ => .ok, []⟩
        false (some 10) 100 [⟨"bob", none, "t"⟩]).2 =
        [NotifierEffect.hookInvoked "bob"]) := by
  refine ⟨⟨?_, ?_⟩, ?_, ?_⟩ <;> decide

/-- Witness for C3 (amended): the concrete successful-hook run. -/
theorem processDormant_graceExpired_removes_witness :
    ("bob", (⟨7, "bob", 0, ["notify"]⟩ : Issue)) ∈
      (processDormantUsers
        ⟨fun _ => .ok (some ⟨7, "bob", 0, ["notify"]⟩), fun l => .ok ⟨9, l, 0, []⟩,
          some (fun _ => .ok true), fun _ => .ok (), fun _ _ => .ok (),
          fun _ => .ok (), fun _ _ => .ok, []⟩
        false (some 10) 100 [⟨"bob", none, "t"⟩]).1.removed ∧
    List.count (NotifierEffect.hookInvoked "bob")
      [NotifierEffect.hookInvoked "bob", .commentAdded 7,
        .labelAdded 7 NotificationStatus.removed, .issueClosed 7,
        .labelRemoved 7 NotificationStatus.pending] = 1 ∧
    NotifierEffect.issueClosed 7 ∈
      [NotifierEffect.hookInvoked "bob", .commentAdded 7,
        .labelAdded 7 NotificationStatus.removed, .issueClosed 7,
        .labelRemoved 7 NotificationStatus.pending] := by
  obtain ⟨h₁, h₂, h₃, h₄⟩ := processDormant_graceExpired_removes
    ⟨fun _ => .ok (some ⟨7, "bob", 0, ["notify"]⟩), fun l => .ok ⟨9, l, 0, []⟩,
      some (fun _ => .ok true), fun _ => .ok (), fun _ _ => .ok (),
      fun _ => .ok (), fun _ _ => .ok, []⟩
    (some 10) 100 [⟨"bob", none, "t"⟩] ⟨"bob", none, "t"⟩
    ⟨7, "bob", 0, ["notify"]⟩ (fun _ => .ok true)
    (by simp) (by rfl) rfl (by rfl) (by rfl) rfl rfl rfl rfl rfl rfl
  exact ⟨h₄, h₂, h₃⟩

end DormantAccounts
